import Mathlib

/-!
Verification of the forecast engine of the Axels-Finances repository.

The TypeScript source is shallowly embedded as follows.

* JS `number` is modelled by `JsNum`: an exact rational payload extended with
  `nan`, `inf` and `ninf`.  Arithmetic on the finite payload is exact rational
  arithmetic (the usual reals-instead-of-floats abstraction); the special
  values follow the IEEE propagation rules that JS exposes (`NaN`
  contaminates, comparisons involving `NaN` are false, `Math.min` propagates
  `NaN`, ...).  The model has a single zero.
* JS `Date` values produced by the date library always denote plain calendar
  days, so a valid date is modelled by its epoch day number (`Int`) and a
  possibly-invalid date by `Option Int` (`none` = Invalid Date; comparison
  operators on it return `false`, mirroring `NaN` timestamp comparisons).
  Civil (year, month, day) conversions use the standard Gregorian algorithms.
* JS string comparison (`<`, `<=` and `localeCompare` on the ASCII dates,
  month keys, category and item names the engine compares) is modelled by
  lexicographic comparison of the code points, `strLtB` below.
* `Array.prototype.sort` is mandated by ECMAScript to be a stable sort with
  respect to the comparator; it is modelled by `List.insertionSort`, which is
  stable and kernel-computable.
* TS optional fields (`x?: T`) and nullable fields are `Option`.
-/

set_option maxRecDepth 40000

/-! ## String comparison (code-point lexicographic) -/

def charLtB (a b : Char) : Bool := a.toNat < b.toNat

def listLtB : List Char → List Char → Bool
  | [], [] => false
  | [], _ :: _ => true
  | _ :: _, [] => false
  | a :: as, b :: bs =>
    if charLtB a b then true else if charLtB b a then false else listLtB as bs

/-- JS `s < t` on strings: lexicographic comparison of code points. -/
def strLtB (s t : String) : Bool := listLtB s.data t.data

/-- JS `s <= t` on strings. -/
def strLeB (s t : String) : Bool := ! strLtB t s

/-- JS `a.localeCompare(b)`, modelled as code-point comparison returning
the sign the engine's comparators rely on. -/
def strCmp (s t : String) : Int :=
  if strLtB s t then -1 else if strLtB t s then 1 else 0

theorem listLtB_irrefl (l : List Char) : listLtB l l = false := by
  induction l with
  | nil => rfl
  | cons a as ih => simp [listLtB, charLtB, ih]

theorem listLtB_asymm {l m : List Char} (h : listLtB l m = true) :
    listLtB m l = false := by
  induction l generalizing m with
  | nil =>
    cases m with
    | nil => simp [listLtB]
    | cons b bs => simp [listLtB]
  | cons a as ih =>
    cases m with
    | nil => simp [listLtB] at h
    | cons b bs =>
      simp only [listLtB, charLtB] at h ⊢
      rcases lt_trichotomy a.toNat b.toNat with hab | hab | hab
      · simp [hab, not_lt.mpr (le_of_lt hab)]
      · simp only [hab, lt_irrefl, if_false] at h ⊢
        exact ih h
      · simp [hab, not_lt.mpr (le_of_lt hab)] at h

theorem listLtB_trans {l m n : List Char} (h1 : listLtB l m = true)
    (h2 : listLtB m n = true) : listLtB l n = true := by
  induction l generalizing m n with
  | nil =>
    cases n with
    | nil =>
      cases m with
      | nil => simp [listLtB] at h1
      | cons b bs => simp [listLtB] at h2
    | cons c cs => simp [listLtB]
  | cons a as ih =>
    cases m with
    | nil => simp [listLtB] at h1
    | cons b bs =>
      cases n with
      | nil => simp [listLtB] at h2
      | cons c cs =>
        simp only [listLtB, charLtB] at h1 h2 ⊢
        rcases Nat.lt_trichotomy a.toNat b.toNat with hab | hab | hab
        · rcases Nat.lt_trichotomy b.toNat c.toNat with hbc | hbc | hbc
          · have hac : a.toNat < c.toNat := by omega
            simp [hac]
          · have hac : a.toNat < c.toNat := by omega
            simp [hac]
          · have hnbc : ¬ b.toNat < c.toNat := by omega
            simp [hnbc, hbc] at h2
        · have hnab : ¬ a.toNat < b.toNat := by omega
          have hnba : ¬ b.toNat < a.toNat := by omega
          simp only [hnab, hnba, decide_False, Bool.false_eq_true, if_false] at h1
          rcases Nat.lt_trichotomy b.toNat c.toNat with hbc | hbc | hbc
          · have hac : a.toNat < c.toNat := by omega
            simp [hac]
          · have hnbc : ¬ b.toNat < c.toNat := by omega
            have hncb : ¬ c.toNat < b.toNat := by omega
            have hnac : ¬ a.toNat < c.toNat := by omega
            have hnca : ¬ c.toNat < a.toNat := by omega
            simp only [hnbc, hncb, decide_False, Bool.false_eq_true, if_false] at h2
            simp [hnac, hnca, ih h1 h2]
          · have hnbc : ¬ b.toNat < c.toNat := by omega
            simp [hnbc, hbc] at h2
        · have hnab : ¬ a.toNat < b.toNat := by omega
          simp [hnab, hab] at h1

theorem listLtB_conn {l m : List Char} (h1 : listLtB l m = false)
    (h2 : listLtB m l = false) : l = m := by
  induction l generalizing m with
  | nil =>
    cases m with
    | nil => rfl
    | cons b bs => simp [listLtB] at h1
  | cons a as ih =>
    cases m with
    | nil => simp [listLtB] at h2
    | cons b bs =>
      simp only [listLtB, charLtB] at h1 h2
      rcases lt_trichotomy a.toNat b.toNat with hab | hab | hab
      · simp [hab] at h1
      · have hval : a = b := Char.ext (UInt32.ext hab)
        subst hval
        simp only [lt_irrefl, if_false] at h1 h2
        rw [ih h1 h2]
      · simp [hab, not_lt.mpr (le_of_lt hab)] at h2

theorem strLtB_irrefl (s : String) : strLtB s s = false := listLtB_irrefl _

theorem strLtB_asymm {s t : String} (h : strLtB s t = true) :
    strLtB t s = false := listLtB_asymm h

theorem strLtB_trans {s t u : String} (h1 : strLtB s t = true)
    (h2 : strLtB t u = true) : strLtB s u = true := listLtB_trans h1 h2

theorem strLtB_conn {s t : String} (h1 : strLtB s t = false)
    (h2 : strLtB t s = false) : s = t := String.ext (listLtB_conn h1 h2)

theorem strLeB_refl (s : String) : strLeB s s = true := by
  simp [strLeB, strLtB_irrefl]

theorem strLeB_trans {s t u : String} (h1 : strLeB s t = true)
    (h2 : strLeB t u = true) : strLeB s u = true := by
  simp only [strLeB, Bool.not_eq_true'] at h1 h2 ⊢
  by_contra hus
  rw [Bool.not_eq_false] at hus
  rcases Bool.eq_false_or_eq_true (strLtB s t) with hst | hst
  · have : strLtB u t = true := strLtB_trans hus hst
    exact absurd this (by simp [h2])
  · have hts : s = t := strLtB_conn hst h1
    rw [hts] at hus
    exact absurd hus (by simp [h2])

theorem strLeB_total (s t : String) : strLeB s t = true ∨ strLeB t s = true := by
  simp only [strLeB, Bool.not_eq_true']
  rcases Bool.eq_false_or_eq_true (strLtB t s) with h | h
  · exact Or.inr (strLtB_asymm h)
  · exact Or.inl h

/-! ## JS numbers -/

/-- A JS `number`, with the finite payload modelled exactly by a rational. -/
inductive JsNum where
  | nan : JsNum
  | inf : JsNum
  | ninf : JsNum
  | num (q : ℚ) : JsNum
  deriving DecidableEq

namespace JsNum

/-- `Number.isFinite`. -/
def isFinite : JsNum → Bool
  | num _ => true
  | _ => false

/-- The rational payload of a finite value (junk `0` otherwise). -/
def toQ : JsNum → ℚ
  | num q => q
  | _ => 0

/-- JS `<` (false whenever `NaN` is involved). -/
def jsLt : JsNum → JsNum → Bool
  | nan, _ => false
  | _, nan => false
  | inf, _ => false
  | ninf, ninf => false
  | ninf, _ => true
  | num _, inf => true
  | num _, ninf => false
  | num a, num b => a < b

/-- JS `<=` (false whenever `NaN` is involved). -/
def jsLe : JsNum → JsNum → Bool
  | nan, _ => false
  | _, nan => false
  | ninf, _ => true
  | inf, inf => true
  | inf, _ => false
  | num _, inf => true
  | num _, ninf => false
  | num a, num b => a ≤ b

/-- JS `>`. -/
def jsGt (a b : JsNum) : Bool := jsLt b a

/-- JS `>=`. -/
def jsGe (a b : JsNum) : Bool := jsLe b a

/-- JS `+`. -/
def add : JsNum → JsNum → JsNum
  | nan, _ => nan
  | _, nan => nan
  | inf, ninf => nan
  | ninf, inf => nan
  | inf, _ => inf
  | _, inf => inf
  | ninf, _ => ninf
  | _, ninf => ninf
  | num a, num b => num (a + b)

/-- JS unary `-`. -/
def neg : JsNum → JsNum
  | nan => nan
  | inf => ninf
  | ninf => inf
  | num q => num (-q)

/-- JS binary `-`. -/
def sub (a b : JsNum) : JsNum := add a (neg b)

/-- JS `*` (signed zero is collapsed onto the single zero of the model). -/
def mul : JsNum → JsNum → JsNum
  | nan, _ => nan
  | _, nan => nan
  | inf, inf => inf
  | inf, ninf => ninf
  | ninf, inf => ninf
  | ninf, ninf => inf
  | inf, num q => if 0 < q then inf else if q < 0 then ninf else nan
  | num q, inf => if 0 < q then inf else if q < 0 then ninf else nan
  | ninf, num q => if 0 < q then ninf else if q < 0 then inf else nan
  | num q, ninf => if 0 < q then ninf else if q < 0 then inf else nan
  | num a, num b => num (a * b)

/-- JS `/` (sign-of-zero nuances are collapsed; the engine only divides by
the literal `100` and by frequency constants, so these corners are never
exercised). -/
def div : JsNum → JsNum → JsNum
  | nan, _ => nan
  | _, nan => nan
  | inf, inf => nan
  | inf, ninf => nan
  | ninf, inf => nan
  | ninf, ninf => nan
  | inf, num q => if q < 0 then ninf else inf
  | ninf, num q => if q < 0 then inf else ninf
  | num _, inf => num 0
  | num _, ninf => num 0
  | num a, num b =>
    if b = 0 then (if a = 0 then nan else if 0 < a then inf else ninf)
    else num (a / b)

/-- `Math.min` (propagates `NaN`). -/
def jsMin : JsNum → JsNum → JsNum
  | nan, _ => nan
  | _, nan => nan
  | ninf, _ => ninf
  | _, ninf => ninf
  | inf, b => b
  | a, inf => a
  | num a, num b => num (min a b)

/-- `Math.max` (propagates `NaN`). -/
def jsMax : JsNum → JsNum → JsNum
  | nan, _ => nan
  | _, nan => nan
  | inf, _ => inf
  | _, inf => inf
  | ninf, b => b
  | a, ninf => a
  | num a, num b => num (max a b)

/-- JS truthiness of a number: `0` and `NaN` are falsy. -/
def truthy : JsNum → Bool
  | nan => false
  | num q => q ≠ 0
  | _ => true

/-- `Math.floor` on a finite value (junk on specials, never exercised there). -/
def jsFloor : JsNum → Int
  | num q => ⌊q⌋
  | _ => 0

theorem jsMin_num (a b : ℚ) : jsMin (num a) (num b) = num (min a b) := rfl

theorem add_num (a b : ℚ) : add (num a) (num b) = num (a + b) := rfl

theorem sub_num (a b : ℚ) : sub (num a) (num b) = num (a - b) := by
  simp [sub, add, neg, sub_eq_add_neg]

end JsNum

/-! ## Date arithmetic (the `date` module)

A valid calendar date is its epoch day number (days since 1970-01-01, as an
`Int`); `Option Int` adds the JS Invalid Date.  `daysFromCivil` and
`civilFromDays` are the standard proleptic-Gregorian conversions, mirroring
what `new Date(y, m, d)` / `getFullYear/getMonth/getDate` compute for
time-of-day-free dates. -/

/-- Epoch day number of the civil date `(y, m, d)` with 1-based month. -/
def daysFromCivil (y m d : Int) : Int :=
  let y1 := if m ≤ 2 then y - 1 else y
  let era := y1 / 400
  let yoe := y1 - era * 400
  let doy := (153 * (if 2 < m then m - 3 else m + 9) + 2) / 5 + d - 1
  let doe := yoe * 365 + yoe / 4 - yoe / 100 + doy
  era * 146097 + doe - 719468

/-- Civil date `(y, m, d)` (1-based month) of an epoch day number. -/
def civilFromDays (z0 : Int) : Int × Int × Int :=
  let z := z0 + 719468
  let era := z / 146097
  let doe := z - era * 146097
  let yoe := (doe - doe / 1460 + doe / 36524 - doe / 146096) / 365
  let y := yoe + era * 400
  let doy := doe - (365 * yoe + yoe / 4 - yoe / 100)
  let mp := (5 * doy + 2) / 153
  let d := doy - (153 * mp + 2) / 5 + 1
  let m := if mp < 10 then mp + 3 else mp - 9
  (if m ≤ 2 then y + 1 else y, m, d)

/-- Gregorian leap-year test. -/
def isLeapYear (y : Int) : Bool :=
  (y % 4 = 0 && y % 100 ≠ 0) || y % 400 = 0

/-- Number of days in month `m` of year `y`; the source computes this as
`new Date(y, m, 0).getDate()` (day 0 of the following month). -/
def daysInMonth (y m : Int) : Int :=
  if m = 2 then (if isLeapYear y then 29 else 28)
  else if m = 4 ∨ m = 6 ∨ m = 9 ∨ m = 11 then 30
  else 31

/-- `new Date(year, monthIndex, day)` (0-based month index, arbitrary
overflow in both index and day), including the JS rule mapping literal years
0..99 to 1900..1999.  Result is the epoch day number. -/
def jsMakeDate (year monthIdx day : Int) : Int :=
  let y0 := if 0 ≤ year ∧ year ≤ 99 then 1900 + year else year
  let y1 := y0 + monthIdx / 12
  let m1 := monthIdx % 12 + 1
  daysFromCivil y1 m1 1 + (day - 1)

/-- `startOfDay`: the identity on the calendar-day model (time-of-day is not
represented). -/
def startOfDay (t : Int) : Int := t

/-- `addDays(date, n)`. -/
def addDays (t : Int) (n : Int) : Int := t + n

/-- `addMonths(date, n)`: step the month, then clamp the day-of-month to the
target month's length. -/
def addMonths (t : Int) (n : Int) : Int :=
  let c := civilFromDays t
  let first := jsMakeDate c.1 (c.2.1 - 1 + n) 1
  let c2 := civilFromDays first
  let maxDay := daysInMonth c2.1 c2.2.1
  first + (min c.2.2 maxDay - 1)

/-- `addYears(date, n)`: step the year, then clamp the day-of-month. -/
def addYears (t : Int) (n : Int) : Int :=
  let c := civilFromDays t
  let first := jsMakeDate (c.1 + n) (c.2.1 - 1) 1
  let c2 := civilFromDays first
  let maxDay := daysInMonth c2.1 c2.2.1
  first + (min c.2.2 maxDay - 1)

/-- Zero-pad a natural number to at least `w` digits. -/
def padNat (w : Nat) (n : Nat) : String :=
  let s := toString n
  if s.length < w then String.mk (List.replicate (w - s.length) '0') ++ s else s

/-- `toISODate(date)`: format as `YYYY-MM-DD` (years of interest are
1583..9999, where `toISOString` uses plain 4-digit years). -/
def toISODate (t : Int) : String :=
  let c := civilFromDays t
  padNat 4 c.1.toNat ++ "-" ++ padNat 2 c.2.1.toNat ++ "-" ++ padNat 2 c.2.2.toNat

/-- Split a character list on `'-'` (JS `split('-')`). -/
def splitDash : List Char → List Char → List (List Char)
  | acc, [] => [acc.reverse]
  | acc, c :: cs => if c = '-' then acc.reverse :: splitDash [] cs else splitDash (c :: acc) cs

/-- JS `Number(s)` restricted to the decimal-digit strings the date parser
feeds it: `""` is `0`, a digit string is its value, anything else is `NaN`
(`none`).  (Exotic numeric syntax such as exponents or signs never reaches
`parseISODate` from well-formed inputs and is collapsed to `NaN`.) -/
def digitStringToNat : List Char → Option Nat
  | [] => some 0
  | cs => digitsValue cs 0
where
  digitsValue : List Char → Nat → Option Nat
    | [], acc => some acc
    | c :: cs, acc =>
      if c.toNat < 48 ∨ 57 < c.toNat then none
      else digitsValue cs (acc * 10 + (c.toNat - 48))

/-- `parseISODate(string)`: split on `-`, convert the pieces with `Number`,
and build `new Date(year, (month ?? 1) - 1, day ?? 1)`.  `none` is the JS
Invalid Date (a present but non-numeric component). -/
def parseISODate (s : String) : Option Int :=
  let parts := splitDash [] s.data
  match parts with
  | [] => none
  | y :: rest =>
    match digitStringToNat y with
    | none => none
    | some yv =>
      let mres : Option Nat :=
        match rest with
        | [] => some 1
        | mPart :: _ => digitStringToNat mPart
      match mres with
      | none => none
      | some mv =>
        let dres : Option Nat :=
          match rest with
          | [] => some 1
          | [_] => some 1
          | _ :: dPart :: _ => digitStringToNat dPart
        match dres with
        | none => none
        | some dv => some (jsMakeDate (yv : Int) ((mv : Int) - 1) (dv : Int))

/-- `isValidDate(date)`. -/
def isValidDate (t : Option Int) : Bool := t.isSome

/-! ## Data model (the `types` module) -/

inductive PayFrequency where
  | weekly
  | biweekly
  | semimonthly
  | monthly
  deriving DecidableEq

inductive ExpenseRepeat where
  | none
  | weekly
  | biweekly
  | monthly
  | yearly
  deriving DecidableEq

inductive PaycheckInputMode where
  | net
  | calculate
  deriving DecidableEq

inductive GrossInputMode where
  | direct
  | hourly
  deriving DecidableEq

inductive DeductionType where
  | fixed
  | percentOfGross
  deriving DecidableEq

/-- A deduction or tax-withheld line (the two TS interfaces have identical
shape). -/
structure DeductionLine where
  id : String
  name : String
  type : DeductionType
  value : JsNum
  deriving DecidableEq

structure PaycheckConfig where
  paycheckInputMode : PaycheckInputMode
  grossInputMode : GrossInputMode
  netPayAmount : Option JsNum
  grossPayAmount : Option JsNum
  hourlyRate : Option JsNum
  hoursPerWeek : Option JsNum
  pretaxDeductions : List DeductionLine
  taxesWithheld : List DeductionLine
  posttaxDeductions : List DeductionLine
  loanRepaymentAmount : JsNum
  payFrequency : PayFrequency
  nextPayDate : String
  monthlyBonusAmount : Option JsNum
  deriving DecidableEq

/-- Categories are a closed union of string literals in TS; they are
modelled as plain strings, which is what the engine compares. -/
structure Expense where
  id : String
  name : String
  amount : JsNum
  firstDueDate : String
  variableDatesEnabled : Bool
  variableDueDates : Option (List String)
  repeatCount : Option JsNum
  highlightLastEvent : Option Bool
  -- the TS field is spelled `repeat`, a Lean keyword
  repeatRule : ExpenseRepeat
  category : String
  notes : Option String
  deriving DecidableEq

inductive EventKind where
  | income
  | expense
  deriving DecidableEq

structure ForecastEvent where
  id : String
  date : String
  type : EventKind
  item : String
  category : String
  amount : JsNum
  sourceId : Option String
  deriving DecidableEq

structure ForecastRow extends ForecastEvent where
  runningBalance : JsNum
  deriving DecidableEq

structure PaydayMetrics where
  nextPaydayDate : String
  balanceOnNextPayday : JsNum
  lowestBalanceBeforeNextPayday : JsNum
  safeToSpendUntilNextPayday : JsNum
  deriving DecidableEq

structure NetPayBreakdown where
  grossPay : JsNum
  pretaxTotal : JsNum
  taxesTotal : JsNum
  posttaxTotal : JsNum
  loanRepaymentAmount : JsNum
  totalWithheldDeducted : JsNum
  netPay : JsNum
  deriving DecidableEq

/-! ## Pay computation (the `forecast` module, first half) -/

/-- `Number.EPSILON` (2^-52), exact in the rational model. -/
def jsEpsilon : ℚ := 1 / 4503599627370496

/-- `roundToCents(value)`: `Math.round((value + Number.EPSILON) * 100) / 100`;
`Math.round x = ⌊x + 1/2⌋` (ties toward positive infinity). -/
def roundToCents : JsNum → JsNum
  | JsNum.nan => JsNum.nan
  | JsNum.inf => JsNum.inf
  | JsNum.ninf => JsNum.ninf
  | JsNum.num q => JsNum.num ((⌊(q + jsEpsilon) * 100 + 1 / 2⌋ : ℤ) / 100)

/-- `computeGrossPayFromHourly(payFrequency, hourlyRate, hoursPerWeek)`. -/
def computeGrossPayFromHourly (payFrequency : PayFrequency)
    (hourlyRate hoursPerWeek : Option JsNum) : JsNum :=
  let hr := hourlyRate.getD JsNum.nan
  let hpw := hoursPerWeek.getD JsNum.nan
  if ¬ (JsNum.isFinite hr = true) ∨ ¬ (JsNum.isFinite hpw = true) ∨
      JsNum.jsLe (hourlyRate.getD (JsNum.num 0)) (JsNum.num 0) = true ∨
      JsNum.jsLe (hoursPerWeek.getD (JsNum.num 0)) (JsNum.num 0) = true then
    JsNum.nan
  else
    let weeklyGross := JsNum.mul (hourlyRate.getD (JsNum.num 0)) (hoursPerWeek.getD (JsNum.num 0))
    match payFrequency with
    | PayFrequency.weekly => roundToCents weeklyGross
    | PayFrequency.biweekly => roundToCents (JsNum.mul weeklyGross (JsNum.num 2))
    | PayFrequency.semimonthly =>
      roundToCents (JsNum.div (JsNum.mul weeklyGross (JsNum.num 52)) (JsNum.num 24))
    | PayFrequency.monthly =>
      roundToCents (JsNum.div (JsNum.mul weeklyGross (JsNum.num 52)) (JsNum.num 12))

/-- `sumDeductionLines(lines, grossPay)` (also used for tax lines, whose TS
source is the same fold line for line). -/
def sumDeductionLines (lines : List DeductionLine) (grossPay : JsNum) : JsNum :=
  lines.foldl
    (fun sum line =>
      if ¬ (JsNum.isFinite line.value = true) ∨ JsNum.jsLt line.value (JsNum.num 0) = true then
        sum
      else if line.type = DeductionType.percentOfGross then
        JsNum.add sum (JsNum.mul (JsNum.div line.value (JsNum.num 100)) grossPay)
      else
        JsNum.add sum line.value)
    (JsNum.num 0)

/-- The gross pay a `calculate`-mode config yields, per `grossInputMode`
(the `grossPay` local of `computeNetPayBreakdown`). -/
def grossPayOf (config : PaycheckConfig) : JsNum :=
  if config.grossInputMode = GrossInputMode.hourly then
    computeGrossPayFromHourly config.payFrequency config.hourlyRate config.hoursPerWeek
  else
    config.grossPayAmount.getD JsNum.nan

/-- `computeNetPayBreakdown(config)`. -/
def computeNetPayBreakdown (config : PaycheckConfig) : NetPayBreakdown :=
  if config.paycheckInputMode = PaycheckInputMode.net then
    let netPay := roundToCents (config.netPayAmount.getD JsNum.nan)
    { grossPay := JsNum.num 0
      pretaxTotal := JsNum.num 0
      taxesTotal := JsNum.num 0
      posttaxTotal := JsNum.num 0
      loanRepaymentAmount := JsNum.num 0
      totalWithheldDeducted := JsNum.num 0
      netPay := netPay }
  else
    let grossPay := grossPayOf config
    if ¬ (JsNum.isFinite grossPay = true) ∨ JsNum.jsLe grossPay (JsNum.num 0) = true then
      { grossPay := grossPay
        pretaxTotal := JsNum.nan
        taxesTotal := JsNum.nan
        posttaxTotal := JsNum.nan
        loanRepaymentAmount := JsNum.nan
        totalWithheldDeducted := JsNum.nan
        netPay := JsNum.nan }
    else
      let pretaxTotal := sumDeductionLines config.pretaxDeductions grossPay
      let taxesTotal := sumDeductionLines config.taxesWithheld grossPay
      let posttaxTotal := sumDeductionLines config.posttaxDeductions grossPay
      let loanRepaymentAmount :=
        if JsNum.isFinite config.loanRepaymentAmount = true then
          JsNum.jsMax (JsNum.num 0) config.loanRepaymentAmount
        else JsNum.nan
      let totalWithheldDeducted :=
        JsNum.add (JsNum.add (JsNum.add pretaxTotal taxesTotal) posttaxTotal) loanRepaymentAmount
      let netPay := JsNum.sub grossPay totalWithheldDeducted
      { grossPay := roundToCents grossPay
        pretaxTotal := roundToCents pretaxTotal
        taxesTotal := roundToCents taxesTotal
        posttaxTotal := roundToCents posttaxTotal
        loanRepaymentAmount := roundToCents loanRepaymentAmount
        totalWithheldDeducted := roundToCents totalWithheldDeducted
        netPay := roundToCents netPay }

/-- `computeNetPay(config)`. -/
def computeNetPay (config : PaycheckConfig) : JsNum :=
  (computeNetPayBreakdown config).netPay

/-! ## Event generators (the `forecast` module, second half) -/

/-- `addSemimonthly(date)`: the 1st jumps to the 15th of the same month, the
2nd..15th to the 1st of the next month, the 16th onward to the 15th of the
next month. -/
def addSemimonthly (t : Int) : Int :=
  let c := civilFromDays t
  if c.2.2 ≤ 1 then jsMakeDate c.1 (c.2.1 - 1) 15
  else if c.2.2 ≤ 15 then jsMakeDate c.1 c.2.1 1
  else jsMakeDate c.1 c.2.1 15

/-- `advanceIncomeDate(date, frequency)` (the TS `default` arm repeats the
`weekly` arm and is unreachable over the closed `PayFrequency` union). -/
def advanceIncomeDate (t : Int) (frequency : PayFrequency) : Int :=
  match frequency with
  | PayFrequency.weekly => addDays t 7
  | PayFrequency.biweekly => addDays t 14
  | PayFrequency.monthly => addMonths t 1
  | PayFrequency.semimonthly => addSemimonthly t

/-- The capped income recurrence walk: the body of the `for (i = 0; i < 5000)`
loop of `generateIncomeEvents`, with the remaining iteration budget as
explicit fuel (`fuel = 5000 - i`). -/
def incomeWalk (amount : JsNum) (frequency : PayFrequency) (hs he : Int) :
    Nat → Int → Nat → List ForecastEvent
  | 0, _, _ => []
  | fuel + 1, cursor, i =>
    if he < cursor then []
    else
      (if hs ≤ cursor then
        [{ id := "income-" ++ toISODate cursor ++ "-" ++ toString i
           date := toISODate cursor
           type := EventKind.income
           item := "Paycheck"
           category := "income"
           amount := amount
           sourceId := Option.none }]
       else []) ++
      incomeWalk amount frequency hs he fuel (advanceIncomeDate cursor frequency) (i + 1)

/-- `generateIncomeEvents(config, horizonStart, horizonEnd)`. -/
def generateIncomeEvents (config : PaycheckConfig) (horizonStart horizonEnd : Int) :
    List ForecastEvent :=
  if config.nextPayDate = "" then []
  else
    let netPayAmount := computeNetPay config
    if ¬ (JsNum.isFinite netPayAmount = true) then []
    else
      match parseISODate config.nextPayDate with
      | Option.none => []
      | some c0 => incomeWalk netPayAmount config.payFrequency horizonStart horizonEnd 5000 c0 0

/-- `date.slice(0, 7)`: the `YYYY-MM` month key. -/
def monthKeyOf (date : String) : String := String.mk (date.data.take 7)

/-- Lookup in the insertion-ordered string map modelling a JS `Map`. -/
def lookupStr : List (String × String) → String → Option String
  | [], _ => Option.none
  | (k1, v) :: rest, k => if k1 = k then some v else lookupStr rest k

/-- `Map.set`: update in place, or append a fresh key at the end. -/
def setStr : List (String × String) → String → String → List (String × String)
  | [], k, v => [(k, v)]
  | (k1, v1) :: rest, k, v =>
    if k1 = k then (k1, v) :: rest else (k1, v1) :: setStr rest k v

/-- One `forEach` step of the `lastPaycheckByMonth` accumulation: store the
event's date under its month key when no date is stored yet (`!previous`
also treats an empty stored string as absent) or the stored date is
string-smaller. -/
def updateLastPaycheck (m : List (String × String)) (ev : ForecastEvent) :
    List (String × String) :=
  let mk := monthKeyOf ev.date
  let overwrite :=
    match lookupStr m mk with
    | Option.none => true
    | some prev => prev = "" || strLtB prev ev.date
  if overwrite then setStr m mk ev.date else m

/-- The `lastPaycheckByMonth` map of `generateBonusEvents`: month key of each
income event, mapped to the latest (string-greatest) income date seen for
that month. -/
def lastPaycheckByMonth (incomeEvents : List ForecastEvent) : List (String × String) :=
  incomeEvents.foldl updateLastPaycheck []

/-- `config.monthlyBonusAmount || 0`: absent, `NaN` and `0` coerce to `0`. -/
def bonusAmountOf (config : PaycheckConfig) : JsNum :=
  match config.monthlyBonusAmount with
  | Option.none => JsNum.num 0
  | some v => if JsNum.truthy v then v else JsNum.num 0

/-- `generateBonusEvents(config, incomeEvents)`. -/
def generateBonusEvents (config : PaycheckConfig) (incomeEvents : List ForecastEvent) :
    List ForecastEvent :=
  let bonusAmount := bonusAmountOf config
  if ¬ (JsNum.jsGt bonusAmount (JsNum.num 0) = true) then []
  else
    (List.insertionSort (fun a b => strCmp a.1 b.1 ≤ 0) (lastPaycheckByMonth incomeEvents)).map
      (fun p =>
        { id := "bonus-" ++ p.1
          date := p.2
          type := EventKind.income
          item := "Monthly Bonus"
          category := "income"
          amount := bonusAmount
          sourceId := Option.none })

/-- `advanceExpenseDate(date, repeat)` (the TS `default` arm repeats the
`none` arm and is unreachable over the closed union). -/
def advanceExpenseDate (t : Int) (r : ExpenseRepeat) : Int :=
  match r with
  | ExpenseRepeat.none => addYears t 1000
  | ExpenseRepeat.weekly => addDays t 7
  | ExpenseRepeat.biweekly => addDays t 14
  | ExpenseRepeat.monthly => addMonths t 1
  | ExpenseRepeat.yearly => addYears t 1

/-- The `maxOccurrences` local of `generateExpenseEvents`; `none` models
`Infinity` (unbounded). -/
def maxOccurrencesOf (e : Expense) : Option Nat :=
  if e.repeatRule = ExpenseRepeat.none then some 1
  else
    match e.repeatCount with
    | Option.none => Option.none
    | some v =>
      if JsNum.isFinite v = true ∧ JsNum.jsGt v (JsNum.num 0) = true then
        some (JsNum.jsFloor v).toNat
      else Option.none

/-- The guard selecting variable-dates mode:
`expense.variableDatesEnabled && Array.isArray(dueDates) && dueDates.length > 0`. -/
def variableModeActive (e : Expense) : Bool :=
  e.variableDatesEnabled &&
    (match e.variableDueDates with
     | some l => decide (0 < l.length)
     | Option.none => false)

/-- The variable-dates branch of `generateExpenseEvents`: sort the listed due
dates, keep the parseable in-horizon ones (`forEach` index included in the
id), one event per kept date. -/
def variableEventsFor (e : Expense) (hs he : Int) : List ForecastEvent :=
  let dueDates := List.insertionSort (fun a b => strCmp a b ≤ 0) (e.variableDueDates.getD [])
  dueDates.enum.filterMap
    (fun p =>
      match parseISODate p.2 with
      | Option.none => Option.none
      | some due =>
        if due < hs ∨ he < due then Option.none
        else
          some
            { id := "expense-" ++ e.id ++ "-" ++ p.2 ++ "-variable-" ++ toString p.1
              date := p.2
              type := EventKind.expense
              item := e.name
              category := e.category
              amount := e.amount
              sourceId := some e.id })

/-- The capped fixed-schedule recurrence walk of `generateExpenseEvents`
(`fuel = 5000 - i`); an Invalid Date cursor compares false on both horizon
checks, emits nothing and stays invalid when advanced, exactly as in JS. -/
def expenseWalk (e : Expense) (maxOcc : Option Nat) (hs he : Int) :
    Nat → Option Int → Nat → Nat → List ForecastEvent
  | 0, _, _, _ => []
  | fuel + 1, cursor, i, occIdx =>
    let capReached : Bool :=
      match maxOcc with
      | some m => decide (m ≤ occIdx)
      | Option.none => false
    let pastHorizon : Bool :=
      match cursor with
      | some t => decide (he < t)
      | Option.none => false
    if capReached then []
    else if pastHorizon then []
    else
      let emitted : List ForecastEvent :=
        match cursor with
        | some t =>
          if hs ≤ t then
            [{ id := "expense-" ++ e.id ++ "-" ++ toISODate t ++ "-" ++ toString i
               date := toISODate t
               type := EventKind.expense
               item := e.name
               category := e.category
               amount := e.amount
               sourceId := some e.id }]
          else []
        | Option.none => []
      if e.repeatRule = ExpenseRepeat.none then emitted
      else
        emitted ++
          expenseWalk e maxOcc hs he fuel
            (cursor.map (fun t => advanceExpenseDate t e.repeatRule)) (i + 1) (occIdx + 1)

/-- The per-expense body of `generateExpenseEvents`. -/
def expenseEventsFor (hs he : Int) (e : Expense) : List ForecastEvent :=
  if variableModeActive e then variableEventsFor e hs he
  else expenseWalk e (maxOccurrencesOf e) hs he 5000 (parseISODate e.firstDueDate) 0 0

/-- `generateExpenseEvents(expenses, horizonStart, horizonEnd)`. -/
def generateExpenseEvents (expenses : List Expense) (horizonStart horizonEnd : Int) :
    List ForecastEvent :=
  expenses.flatMap (expenseEventsFor horizonStart horizonEnd)

/-! ## Forecast builder and payday metrics -/

/-- `compareEvents(a, b)`. -/
def compareEvents (a b : ForecastEvent) : Int :=
  if a.date ≠ b.date then strCmp a.date b.date
  else if a.type ≠ b.type then (if a.type = EventKind.income then -1 else 1)
  else if a.type = EventKind.expense ∧ b.type = EventKind.expense ∧ a.category ≠ b.category then
    strCmp a.category b.category
  else strCmp a.item b.item

/-- The non-strict order induced by the comparator, used to run the stable
sort. -/
def eventLE (a b : ForecastEvent) : Prop := compareEvents a b ≤ 0

instance : DecidableRel eventLE := fun _ _ => inferInstanceAs (Decidable (_ ≤ _))

/-- The annotation fold of `buildForecast`: each event is paired with the
running balance after it posts. -/
def annotateRows (startingBalance : JsNum) : List ForecastEvent → List ForecastRow
  | [] => []
  | e :: rest =>
    let b :=
      if e.type = EventKind.income then JsNum.add startingBalance e.amount
      else JsNum.sub startingBalance e.amount
    { toForecastEvent := e, runningBalance := b } :: annotateRows b rest

/-- `buildForecast(events, startingBalance)`. -/
def buildForecast (events : List ForecastEvent) (startingBalance : JsNum) : List ForecastRow :=
  annotateRows startingBalance (List.insertionSort eventLE events)

/-- `computeNextPaydayMetrics(forecastRows, nextPaydayDate, minimumBuffer,
startingBalance)`. -/
def computeNextPaydayMetrics (forecastRows : List ForecastRow) (nextPaydayDate : String)
    (minimumBuffer startingBalance : JsNum) : PaydayMetrics :=
  let rowsUntilPayday := forecastRows.filter (fun row => strLeB row.date nextPaydayDate)
  let balanceOnNextPayday :=
    match rowsUntilPayday.getLast? with
    | some row => row.runningBalance
    | Option.none => startingBalance
  let rowsBeforePaydayIncome := forecastRows.filter (fun row => strLtB row.date nextPaydayDate)
  let lowestBalanceBeforeNextPayday :=
    rowsBeforePaydayIncome.foldl (fun m row => JsNum.jsMin m row.runningBalance) startingBalance
  { nextPaydayDate := nextPaydayDate
    balanceOnNextPayday := balanceOnNextPayday
    lowestBalanceBeforeNextPayday := lowestBalanceBeforeNextPayday
    safeToSpendUntilNextPayday := JsNum.sub lowestBalanceBeforeNextPayday minimumBuffer }

/-! ## View layer (the `forecastView` module, `createFiniteExpenseIdSet`) -/

/-- `Map.set(k, (get(k) ?? 0) + 1)` on the insertion-ordered count map. -/
def bumpCount : List (String × Nat) → String → List (String × Nat)
  | [], k => [(k, 1)]
  | (k1, c) :: rest, k =>
    if k1 = k then (k1, c + 1) :: rest else (k1, c) :: bumpCount rest k

/-- The `occurrenceCountBySourceId` map: expense-typed rows with a truthy
(non-empty) `sourceId`, counted per source id. -/
def occurrenceCountBySourceId (forecastRows : List ForecastRow) : List (String × Nat) :=
  forecastRows.foldl
    (fun m row =>
      if row.type ≠ EventKind.expense then m
      else
        match row.sourceId with
        | Option.none => m
        | some s => if s = "" then m else bumpCount m s)
    []

/-- `createFiniteExpenseIdSet(expenses, forecastRows)`; the result `Set` is
modelled as the (duplicate-free) list of its elements. -/
def createFiniteExpenseIdSet (expenses : List Expense) (forecastRows : List ForecastRow) :
    List String :=
  let hasAnyExplicitHighlightEnabled := expenses.any (fun e => e.highlightLastEvent = some true)
  let highlightEnabledIds :=
    (expenses.filter
      (fun e =>
        if hasAnyExplicitHighlightEnabled then decide (e.highlightLastEvent = some true)
        else true)).map Expense.id
  ((occurrenceCountBySourceId forecastRows).filter
      (fun p => highlightEnabledIds.contains p.1 && decide (1 < p.2))).map Prod.fst

/-! ## Helper lemmas about the generators -/

theorem generateExpenseEvents_singleton (e : Expense) (hs he : Int) :
    generateExpenseEvents [e] hs he = expenseEventsFor hs he e := by
  simp [generateExpenseEvents]

theorem expenseWalk_succ (e : Expense) (maxOcc : Option Nat) (hs he : Int)
    (fuel : Nat) (cursor : Option Int) (i occIdx : Nat) :
    expenseWalk e maxOcc hs he (fuel + 1) cursor i occIdx =
      (let capReached : Bool :=
        match maxOcc with
        | some m => decide (m ≤ occIdx)
        | Option.none => false
      let pastHorizon : Bool :=
        match cursor with
        | some t => decide (he < t)
        | Option.none => false
      if capReached then []
      else if pastHorizon then []
      else
        let emitted : List ForecastEvent :=
          match cursor with
          | some t =>
            if hs ≤ t then
              [{ id := "expense-" ++ e.id ++ "-" ++ toISODate t ++ "-" ++ toString i
                 date := toISODate t
                 type := EventKind.expense
                 item := e.name
                 category := e.category
                 amount := e.amount
                 sourceId := some e.id }]
            else []
          | Option.none => []
        if e.repeatRule = ExpenseRepeat.none then emitted
        else
          emitted ++
            expenseWalk e maxOcc hs he fuel
              (cursor.map (fun t => advanceExpenseDate t e.repeatRule)) (i + 1) (occIdx + 1)) :=
  rfl

theorem expenseWalk_none_cursor (e : Expense) (maxOcc : Option Nat) (hs he : Int) :
    ∀ (fuel i occIdx : Nat),
      expenseWalk e maxOcc hs he fuel Option.none i occIdx = [] := by
  intro fuel
  induction fuel with
  | zero => intro i occIdx; rfl
  | succ fuel ih =>
    intro i occIdx
    rw [expenseWalk_succ]
    cases maxOcc with
    | none =>
      by_cases hrep : e.repeatRule = ExpenseRepeat.none <;> simp [hrep, ih]
    | some m =>
      by_cases hcap : m ≤ occIdx
      · simp [hcap]
      · by_cases hrep : e.repeatRule = ExpenseRepeat.none <;> simp [hcap, hrep, ih]

theorem expenseWalk_past_horizon (e : Expense) (maxOcc : Option Nat) (hs he : Int)
    (c : Int) (hc : he < c) :
    ∀ (fuel i occIdx : Nat),
      expenseWalk e maxOcc hs he fuel (some c) i occIdx = [] := by
  intro fuel i occIdx
  cases fuel with
  | zero => rfl
  | succ fuel =>
    rw [expenseWalk_succ]
    cases maxOcc with
    | none => simp [hc]
    | some m => by_cases hcap : m ≤ occIdx <;> simp [hcap, hc]

/-! ## Claim C4 -/

/-- C4: for every `calculate`-mode config whose gross pay (direct literal or
hourly-derived, per `grossInputMode`) is non-finite or `≤ 0`,
`computeNetPayBreakdown` returns `NaN` for every breakdown field except
`grossPay`. -/
theorem c4_calculate_bad_gross_all_nan (config : PaycheckConfig)
    (hmode : config.paycheckInputMode = PaycheckInputMode.calculate)
    (hbad : ¬ (JsNum.isFinite (grossPayOf config) = true) ∨
      JsNum.jsLe (grossPayOf config) (JsNum.num 0) = true) :
    computeNetPayBreakdown config =
      { grossPay := grossPayOf config
        pretaxTotal := JsNum.nan
        taxesTotal := JsNum.nan
        posttaxTotal := JsNum.nan
        loanRepaymentAmount := JsNum.nan
        totalWithheldDeducted := JsNum.nan
        netPay := JsNum.nan } := by
  unfold computeNetPayBreakdown
  rw [if_neg (by simp [hmode]), if_pos hbad]

def c4Config : PaycheckConfig :=
  { paycheckInputMode := PaycheckInputMode.calculate
    grossInputMode := GrossInputMode.direct
    netPayAmount := Option.none
    grossPayAmount := some (JsNum.num (-5))
    hourlyRate := Option.none
    hoursPerWeek := Option.none
    pretaxDeductions := [⟨"d1", "HSA", DeductionType.fixed, JsNum.num 25⟩]
    taxesWithheld := [⟨"t1", "Federal withholding", DeductionType.percentOfGross, JsNum.num 10⟩]
    posttaxDeductions := []
    loanRepaymentAmount := JsNum.num 0
    payFrequency := PayFrequency.biweekly
    nextPayDate := "2024-01-05"
    monthlyBonusAmount := Option.none }

theorem c4_calculate_bad_gross_all_nan_witness :
    computeNetPayBreakdown c4Config =
      { grossPay := grossPayOf c4Config
        pretaxTotal := JsNum.nan
        taxesTotal := JsNum.nan
        posttaxTotal := JsNum.nan
        loanRepaymentAmount := JsNum.nan
        totalWithheldDeducted := JsNum.nan
        netPay := JsNum.nan } :=
  c4_calculate_bad_gross_all_nan c4Config (by decide) (Or.inr (by decide))

/-! ## Claim C5 -/

/-- C5: under `payFrequency = semimonthly` the generator advances a cursor on
civil date `(y, m, d)` by the split rule: from day 1 to the 15th of the same
month; from days 2..15 to the 1st of the next month; from day 16 onward to
the 15th of the next month.  The hypotheses `100 ≤ y`, `1 ≤ m ≤ 12`, `1 ≤ d`
say that `(y, m, d)` is a genuine civil date in the era every reachable
income cursor inhabits (ISO parsing maps two-digit years to 19xx, so no
reachable cursor has year `< 100`). -/
theorem daysFromCivil_day_linear (y m d : Int) :
    daysFromCivil y m d = daysFromCivil y m 1 + (d - 1) := by
  simp only [daysFromCivil]
  split_ifs <;> ring

theorem jsMakeDate_inRange (y mi d : Int) (hy : 100 ≤ y) (h0 : 0 ≤ mi) (h11 : mi ≤ 11) :
    jsMakeDate y mi d = daysFromCivil y (mi + 1) d := by
  unfold jsMakeDate
  rw [if_neg (by omega)]
  rw [Int.ediv_eq_zero_of_lt h0 (by omega), Int.emod_eq_of_lt h0 (by omega)]
  rw [daysFromCivil_day_linear y (mi + 1) d]
  ring

theorem jsMakeDate_monthTwelve (y d : Int) (hy : 100 ≤ y) :
    jsMakeDate y 12 d = daysFromCivil (y + 1) 1 d := by
  unfold jsMakeDate
  rw [if_neg (by omega)]
  rw [(by decide : (12 : Int) / 12 = 1), (by decide : (12 : Int) % 12 = 0)]
  rw [daysFromCivil_day_linear (y + 1) 1 d]
  norm_num

theorem c5_semimonthly_split (t y m d : Int)
    (hc : civilFromDays t = (y, m, d)) (hy : 100 ≤ y)
    (hm1 : 1 ≤ m) (hm2 : m ≤ 12) (hd : 1 ≤ d) :
    (d = 1 → advanceIncomeDate t PayFrequency.semimonthly = daysFromCivil y m 15) ∧
    (2 ≤ d → d ≤ 15 → advanceIncomeDate t PayFrequency.semimonthly =
      (if m = 12 then daysFromCivil (y + 1) 1 1 else daysFromCivil y (m + 1) 1)) ∧
    (16 ≤ d → advanceIncomeDate t PayFrequency.semimonthly =
      (if m = 12 then daysFromCivil (y + 1) 1 15 else daysFromCivil y (m + 1) 15)) := by
  have hadv : advanceIncomeDate t PayFrequency.semimonthly = addSemimonthly t := rfl
  refine ⟨?_, ?_, ?_⟩
  · intro h1
    rw [hadv]
    unfold addSemimonthly
    rw [hc]
    simp only
    rw [if_pos (by omega : d ≤ 1)]
    rw [jsMakeDate_inRange y (m - 1) 15 hy (by omega) (by omega)]
    congr 1
    omega
  · intro h2 h15
    rw [hadv]
    unfold addSemimonthly
    rw [hc]
    simp only
    rw [if_neg (by omega : ¬ d ≤ 1), if_pos h15]
    by_cases hm12 : m = 12
    · rw [if_pos hm12, hm12]
      exact jsMakeDate_monthTwelve y 1 hy
    · rw [if_neg hm12]
      exact jsMakeDate_inRange y m 1 hy (by omega) (by omega)
  · intro h16
    rw [hadv]
    unfold addSemimonthly
    rw [hc]
    simp only
    rw [if_neg (by omega : ¬ d ≤ 1), if_neg (by omega : ¬ d ≤ 15)]
    by_cases hm12 : m = 12
    · rw [if_pos hm12, hm12]
      exact jsMakeDate_monthTwelve y 15 hy
    · rw [if_neg hm12]
      exact jsMakeDate_inRange y m 15 hy (by omega) (by omega)

theorem c5_semimonthly_split_witness :
    advanceIncomeDate (daysFromCivil 2024 1 1) PayFrequency.semimonthly =
      daysFromCivil 2024 1 15 :=
  (c5_semimonthly_split (daysFromCivil 2024 1 1) 2024 1 1 (by decide) (by decide)
    (by decide) (by decide) (by decide)).1 rfl

/-! ## Claim C8 -/

theorem expense_repeat_none_characterization (e : Expense) (hs he : Int)
    (hvar : variableModeActive e = false) (hnone : e.repeatRule = ExpenseRepeat.none) :
    generateExpenseEvents [e] hs he =
      (match parseISODate e.firstDueDate with
       | some t =>
         if hs ≤ t ∧ t ≤ he then
           [{ id := "expense-" ++ e.id ++ "-" ++ toISODate t ++ "-" ++ toString (0 : Nat)
              date := toISODate t
              type := EventKind.expense
              item := e.name
              category := e.category
              amount := e.amount
              sourceId := some e.id }]
         else []
       | Option.none => []) := by
  rw [generateExpenseEvents_singleton]
  unfold expenseEventsFor
  rw [if_neg (by simp [hvar])]
  have hmax : maxOccurrencesOf e = some 1 := by simp [maxOccurrencesOf, hnone]
  rw [hmax]
  show expenseWalk e (some 1) hs he (4999 + 1) (parseISODate e.firstDueDate) 0 0 = _
  cases hp : parseISODate e.firstDueDate with
  | none =>
    rw [expenseWalk_none_cursor]
  | some t =>
    rw [expenseWalk_succ]
    by_cases hlt : he < t
    · simp only [decide_eq_true_eq, if_false]
      rw [if_neg (by simp), if_pos (by simpa using hlt)]
      rw [if_neg (by omega : ¬ (hs ≤ t ∧ t ≤ he))]
    · simp only
      rw [if_neg (by simp), if_neg (by simpa using hlt)]
      rw [if_pos hnone]
      by_cases hge : hs ≤ t
      · rw [if_pos (⟨hge, by omega⟩ : hs ≤ t ∧ t ≤ he)]
        simp [hge]
      · rw [if_neg (by omega : ¬ (hs ≤ t ∧ t ≤ he))]
        simp [hge]

/-- C8: a fixed-schedule expense with `repeat = none` yields at most one
occurrence regardless of `repeatCount`: the generator emits exactly the one
anchor-date event when the anchor parses and lies inside the horizon, nothing
otherwise, and never advances past the anchor. -/
theorem c8_repeat_none_single_occurrence (e : Expense) (hs he : Int)
    (hvar : variableModeActive e = false) (hnone : e.repeatRule = ExpenseRepeat.none) :
    (generateExpenseEvents [e] hs he).length ≤ 1 ∧
    generateExpenseEvents [e] hs he =
      (match parseISODate e.firstDueDate with
       | some t =>
         if hs ≤ t ∧ t ≤ he then
           [{ id := "expense-" ++ e.id ++ "-" ++ toISODate t ++ "-" ++ toString (0 : Nat)
              date := toISODate t
              type := EventKind.expense
              item := e.name
              category := e.category
              amount := e.amount
              sourceId := some e.id }]
         else []
       | Option.none => []) ∧
    (∀ rc, generateExpenseEvents [{ e with repeatCount := rc }] hs he =
      generateExpenseEvents [e] hs he) := by
  have h1 := expense_repeat_none_characterization e hs he hvar hnone
  refine ⟨?_, h1, ?_⟩
  · rw [h1]
    cases parseISODate e.firstDueDate with
    | none => simp
    | some t =>
      by_cases hin : hs ≤ t ∧ t ≤ he
      · simp [hin]
      · simp [hin]
  · intro rc
    have h2 := expense_repeat_none_characterization { e with repeatCount := rc } hs he hvar hnone
    rw [h1, h2]

def c8Expense : Expense :=
  { id := "e8"
    name := "Registration"
    amount := JsNum.num 120
    firstDueDate := "2024-01-05"
    variableDatesEnabled := false
    variableDueDates := Option.none
    repeatCount := some (JsNum.num 7)
    highlightLastEvent := Option.none
    repeatRule := ExpenseRepeat.none
    category := "other"
    notes := Option.none }

theorem c8_repeat_none_single_occurrence_witness :
    (generateExpenseEvents [c8Expense] (daysFromCivil 2024 1 1) (daysFromCivil 2024 2 1)).length ≤ 1 ∧
    generateExpenseEvents [c8Expense] (daysFromCivil 2024 1 1) (daysFromCivil 2024 2 1) =
      (match parseISODate c8Expense.firstDueDate with
       | some t =>
         if daysFromCivil 2024 1 1 ≤ t ∧ t ≤ daysFromCivil 2024 2 1 then
           [{ id := "expense-" ++ c8Expense.id ++ "-" ++ toISODate t ++ "-" ++ toString (0 : Nat)
              date := toISODate t
              type := EventKind.expense
              item := c8Expense.name
              category := c8Expense.category
              amount := c8Expense.amount
              sourceId := some c8Expense.id }]
         else []
       | Option.none => []) ∧
    (∀ rc, generateExpenseEvents [{ c8Expense with repeatCount := rc }]
        (daysFromCivil 2024 1 1) (daysFromCivil 2024 2 1) =
      generateExpenseEvents [c8Expense] (daysFromCivil 2024 1 1) (daysFromCivil 2024 2 1)) :=
  c8_repeat_none_single_occurrence c8Expense (daysFromCivil 2024 1 1) (daysFromCivil 2024 2 1)
    (by decide) (by decide)

/-! ## Claim C7 (corrected) -/

theorem variableModeActive_true (e : Expense) (l : List String)
    (hen : e.variableDatesEnabled = true) (hl : e.variableDueDates = some l)
    (hne : l ≠ []) : variableModeActive e = true := by
  simp [variableModeActive, hen, hl, List.length_pos, hne]

theorem enumFrom_variable_dates (e : Expense) (hs he : Int) :
    ∀ (ds : List String) (n : Nat),
      ((List.enumFrom n ds).filterMap (fun p =>
        match parseISODate p.2 with
        | Option.none => Option.none
        | some due =>
          if due < hs ∨ he < due then Option.none
          else
            some
              { id := "expense-" ++ e.id ++ "-" ++ p.2 ++ "-variable-" ++ toString p.1
                date := p.2
                type := EventKind.expense
                item := e.name
                category := e.category
                amount := e.amount
                sourceId := some e.id })).map ForecastEvent.date =
      ds.filter (fun d => match parseISODate d with
        | some t => decide (hs ≤ t ∧ t ≤ he)
        | Option.none => false) := by
  intro ds
  induction ds with
  | nil => intro n; rfl
  | cons d ds ih =>
    intro n
    simp only [List.enumFrom_cons, List.filterMap_cons, List.filter_cons]
    cases hp : parseISODate d with
    | none => simp [hp, ih (n + 1)]
    | some t =>
      by_cases hin : t < hs ∨ he < t
      · have hni : ¬ (hs ≤ t ∧ t ≤ he) := by omega
        simp [hp, hin, hni, ih (n + 1)]
      · have hyi : hs ≤ t ∧ t ≤ he := by omega
        simp [hp, hin, hyi, ih (n + 1)]

theorem variableEvents_dates (e : Expense) (hs he : Int) (l : List String)
    (hl : e.variableDueDates = some l) :
    (variableEventsFor e hs he).map ForecastEvent.date =
      (List.insertionSort (fun a b => strCmp a b ≤ 0) l).filter
        (fun d => match parseISODate d with
          | some t => decide (hs ≤ t ∧ t ≤ he)
          | Option.none => false) := by
  unfold variableEventsFor
  rw [hl]
  simp only [Option.getD_some]
  exact enumFrom_variable_dates e hs he _ 0

theorem variableEvents_mem (e : Expense) (hs he : Int) (l : List String)
    (hl : e.variableDueDates = some l) (ev : ForecastEvent)
    (hmem : ev ∈ variableEventsFor e hs he) :
    ev.type = EventKind.expense ∧ ev.item = e.name ∧ ev.category = e.category ∧
    ev.amount = e.amount ∧ ev.sourceId = some e.id ∧ ev.date ∈ l := by
  unfold variableEventsFor at hmem
  rw [hl] at hmem
  simp only [Option.getD_some, List.mem_filterMap] at hmem
  obtain ⟨p, hp, hfp⟩ := hmem
  have hsnd : p.2 ∈ List.insertionSort (fun a b => strCmp a b ≤ 0) l := by
    have := List.enum_map_snd (List.insertionSort (fun a b => strCmp a b ≤ 0) l)
    rw [← this]
    exact List.mem_map_of_mem Prod.snd hp
  have hmeml : p.2 ∈ l := (List.perm_insertionSort (fun a b => strCmp a b ≤ 0) l).mem_iff.mp hsnd
  rcases hparse : parseISODate p.2 with _ | due
  · rw [hparse] at hfp
    exact absurd hfp (by simp)
  · rw [hparse] at hfp
    dsimp only at hfp
    by_cases hout : due < hs ∨ he < due
    · rw [if_pos hout] at hfp
      exact absurd hfp (by simp)
    · rw [if_neg hout] at hfp
      have := Option.some.inj hfp
      subst this
      exact ⟨rfl, rfl, rfl, rfl, rfl, hmeml⟩

/-- C7 (amended): the claim holds for every expense in variable-dates mode
with a nonempty due-date list: its events are determined solely by the listed
due dates — one event per listed date (sorted ascending) inside the horizon,
no recurrence logic — so changing only `repeat`/`repeatCount` never changes
the event list.  (With an empty or absent due-date list the
`variableDatesEnabled` flag is ignored and the fixed-schedule walk runs, so
the claim as stated fails; see the counterexample.) -/
theorem c7_variable_dates_ignore_repeat (e : Expense) (hs he : Int) (l : List String)
    (hen : e.variableDatesEnabled = true) (hl : e.variableDueDates = some l)
    (hne : l ≠ []) :
    (∀ r1 rc1 r2 rc2,
      generateExpenseEvents [{ e with repeatRule := r1, repeatCount := rc1 }] hs he =
      generateExpenseEvents [{ e with repeatRule := r2, repeatCount := rc2 }] hs he) ∧
    ((generateExpenseEvents [e] hs he).map ForecastEvent.date =
      (List.insertionSort (fun a b => strCmp a b ≤ 0) l).filter
        (fun d => match parseISODate d with
          | some t => decide (hs ≤ t ∧ t ≤ he)
          | Option.none => false)) ∧
    (∀ ev ∈ generateExpenseEvents [e] hs he,
      ev.type = EventKind.expense ∧ ev.item = e.name ∧ ev.category = e.category ∧
      ev.amount = e.amount ∧ ev.sourceId = some e.id ∧ ev.date ∈ l) := by
  have hact : variableModeActive e = true := variableModeActive_true e l hen hl hne
  have hsingle : generateExpenseEvents [e] hs he = variableEventsFor e hs he := by
    rw [generateExpenseEvents_singleton]
    unfold expenseEventsFor
    rw [if_pos hact]
  refine ⟨?_, ?_, ?_⟩
  · intro r1 rc1 r2 rc2
    have hact1 : variableModeActive { e with repeatRule := r1, repeatCount := rc1 } = true :=
      variableModeActive_true _ l hen hl hne
    have hact2 : variableModeActive { e with repeatRule := r2, repeatCount := rc2 } = true :=
      variableModeActive_true _ l hen hl hne
    rw [generateExpenseEvents_singleton, generateExpenseEvents_singleton]
    unfold expenseEventsFor
    rw [if_pos hact1, if_pos hact2]
    rfl
  · rw [hsingle]
    exact variableEvents_dates e hs he l hl
  · intro ev hmem
    rw [hsingle] at hmem
    exact variableEvents_mem e hs he l hl ev hmem

def c7Expense : Expense :=
  { id := "e7"
    name := "Gym"
    amount := JsNum.num 30
    firstDueDate := "2024-01-03"
    variableDatesEnabled := true
    variableDueDates := some []
    repeatCount := Option.none
    highlightLastEvent := Option.none
    repeatRule := ExpenseRepeat.weekly
    category := "health"
    notes := Option.none }

/-- C7 counterexample: an expense with `variableDatesEnabled` set but an
empty `variableDueDates` list falls through to the fixed-schedule walk, so
two such expenses differing only in `repeat` produce different event lists —
refuting the claim for expenses with `variableDatesEnabled` set whose list is
empty. -/
theorem c7_counterexample :
    c7Expense.variableDatesEnabled = true ∧
    generateExpenseEvents [c7Expense] (daysFromCivil 2024 1 1) (daysFromCivil 2024 1 20) ≠
      generateExpenseEvents [{ c7Expense with repeatRule := ExpenseRepeat.none }]
        (daysFromCivil 2024 1 1) (daysFromCivil 2024 1 20) :=
  ⟨rfl, by decide⟩

def c7GoodExpense : Expense :=
  { c7Expense with variableDueDates := some ["2024-01-10", "2024-01-04"] }

theorem c7_variable_dates_ignore_repeat_witness :
    (∀ r1 rc1 r2 rc2,
      generateExpenseEvents [{ c7GoodExpense with repeatRule := r1, repeatCount := rc1 }]
        (daysFromCivil 2024 1 1) (daysFromCivil 2024 1 20) =
      generateExpenseEvents [{ c7GoodExpense with repeatRule := r2, repeatCount := rc2 }]
        (daysFromCivil 2024 1 1) (daysFromCivil 2024 1 20)) ∧
    ((generateExpenseEvents [c7GoodExpense] (daysFromCivil 2024 1 1)
        (daysFromCivil 2024 1 20)).map ForecastEvent.date =
      (List.insertionSort (fun a b => strCmp a b ≤ 0) ["2024-01-10", "2024-01-04"]).filter
        (fun d => match parseISODate d with
          | some t => decide (daysFromCivil 2024 1 1 ≤ t ∧ t ≤ daysFromCivil 2024 1 20)
          | Option.none => false)) ∧
    (∀ ev ∈ generateExpenseEvents [c7GoodExpense] (daysFromCivil 2024 1 1)
        (daysFromCivil 2024 1 20),
      ev.type = EventKind.expense ∧ ev.item = c7GoodExpense.name ∧
      ev.category = c7GoodExpense.category ∧ ev.amount = c7GoodExpense.amount ∧
      ev.sourceId = some c7GoodExpense.id ∧ ev.date ∈ ["2024-01-10", "2024-01-04"]) :=
  c7_variable_dates_ignore_repeat c7GoodExpense (daysFromCivil 2024 1 1)
    (daysFromCivil 2024 1 20) ["2024-01-10", "2024-01-04"] (by decide) (by decide) (by decide)

/-! ## Claim C10 -/

theorem expenseWalkEmitted_fields (e : Expense) (hs : Int) (i : Nat) (cursor : Option Int)
    (ev : ForecastEvent)
    (hmem : ev ∈ (match cursor with
      | some t =>
        if hs ≤ t then
          [{ id := "expense-" ++ e.id ++ "-" ++ toISODate t ++ "-" ++ toString i
             date := toISODate t
             type := EventKind.expense
             item := e.name
             category := e.category
             amount := e.amount
             sourceId := some e.id : ForecastEvent }]
        else []
      | Option.none => ([] : List ForecastEvent))) :
    ev.amount = e.amount ∧ ev.sourceId = some e.id := by
  rcases cursor with _ | t
  · exact absurd hmem (by simp)
  · dsimp only at hmem
    by_cases hge : hs ≤ t
    · rw [if_pos hge] at hmem
      rw [List.mem_singleton] at hmem
      subst hmem
      exact ⟨rfl, rfl⟩
    · rw [if_neg hge] at hmem
      exact absurd hmem (by simp)

theorem expenseWalk_fields (e : Expense) (maxOcc : Option Nat) (hs he : Int) :
    ∀ (fuel : Nat) (cursor : Option Int) (i occIdx : Nat) (ev : ForecastEvent),
      ev ∈ expenseWalk e maxOcc hs he fuel cursor i occIdx →
      ev.amount = e.amount ∧ ev.sourceId = some e.id := by
  intro fuel
  induction fuel with
  | zero => intro cursor i occIdx ev hmem; exact absurd hmem (by simp [expenseWalk])
  | succ fuel ih =>
    intro cursor i occIdx ev hmem
    rcases cursor with _ | t
    · rw [expenseWalk_none_cursor] at hmem
      exact absurd hmem (by simp)
    · by_cases hpast : he < t
      · rw [expenseWalk_past_horizon e maxOcc hs he t hpast] at hmem
        exact absurd hmem (by simp)
      · rw [expenseWalk_succ] at hmem
        dsimp only at hmem
        have hmem2 : ev ∈ (match (some t : Option Int) with
            | some t =>
              if hs ≤ t then
                [{ id := "expense-" ++ e.id ++ "-" ++ toISODate t ++ "-" ++ toString i
                   date := toISODate t
                   type := EventKind.expense
                   item := e.name
                   category := e.category
                   amount := e.amount
                   sourceId := some e.id : ForecastEvent }]
              else []
            | Option.none => ([] : List ForecastEvent)) ∨
            ev ∈ expenseWalk e maxOcc hs he fuel
              (Option.map (fun u => advanceExpenseDate u e.repeatRule) (some t)) (i + 1)
              (occIdx + 1) := by
          cases maxOcc with
          | none =>
            dsimp only at hmem
            rw [if_neg (by simp)] at hmem
            rw [if_neg (by simpa using hpast)] at hmem
            by_cases hrep : e.repeatRule = ExpenseRepeat.none
            · rw [if_pos hrep] at hmem
              exact Or.inl hmem
            · rw [if_neg hrep] at hmem
              exact List.mem_append.mp hmem
          | some m =>
            dsimp only at hmem
            by_cases hcap : m ≤ occIdx
            · rw [if_pos (by simpa using hcap)] at hmem
              exact absurd hmem (by simp)
            · rw [if_neg (by simpa using hcap)] at hmem
              rw [if_neg (by simpa using hpast)] at hmem
              by_cases hrep : e.repeatRule = ExpenseRepeat.none
              · rw [if_pos hrep] at hmem
                exact Or.inl hmem
              · rw [if_neg hrep] at hmem
                exact List.mem_append.mp hmem
        rcases hmem2 with hm | hm
        · exact expenseWalkEmitted_fields e hs i (some t) ev hm
        · exact ih _ _ _ ev hm

/-- C10: every event `generateExpenseEvents` emits — in variable-dates mode
and in fixed-schedule mode alike — carries its source expense's `amount`
field verbatim, with no positivity, finiteness or rounding check, so a
negative or `NaN` amount flows unchanged into the forecast. -/
theorem c10_amount_passthrough (expenses : List Expense) (hs he : Int) (ev : ForecastEvent)
    (hmem : ev ∈ generateExpenseEvents expenses hs he) :
    ∃ e ∈ expenses, ev.sourceId = some e.id ∧ ev.amount = e.amount := by
  unfold generateExpenseEvents at hmem
  obtain ⟨e, hemem, hev⟩ := List.mem_flatMap.mp hmem
  refine ⟨e, hemem, ?_⟩
  unfold expenseEventsFor at hev
  by_cases hv : variableModeActive e = true
  · rw [if_pos hv] at hev
    rcases hdl : e.variableDueDates with _ | l
    · unfold variableEventsFor at hev
      rw [hdl] at hev
      exact absurd hev (by simp)
    · have := variableEvents_mem e hs he l hdl ev hev
      exact ⟨this.2.2.2.2.1, this.2.2.2.1⟩
  · rw [if_neg hv] at hev
    have := expenseWalk_fields e (maxOccurrencesOf e) hs he 5000 (parseISODate e.firstDueDate) 0 0 ev hev
    exact ⟨this.2, this.1⟩

def c10Expense : Expense :=
  { id := "e10"
    name := "Broken import"
    amount := JsNum.nan
    firstDueDate := "2024-01-05"
    variableDatesEnabled := false
    variableDueDates := Option.none
    repeatCount := Option.none
    highlightLastEvent := Option.none
    repeatRule := ExpenseRepeat.none
    category := "other"
    notes := Option.none }

theorem c10_amount_passthrough_witness :
    ∃ e ∈ [c10Expense],
      (ForecastEvent.mk ("expense-" ++ "e10" ++ "-" ++ "2024-01-05" ++ "-" ++ "0")
        "2024-01-05" EventKind.expense "Broken import" "other" JsNum.nan
        (some "e10")).sourceId = some e.id ∧
      (ForecastEvent.mk ("expense-" ++ "e10" ++ "-" ++ "2024-01-05" ++ "-" ++ "0")
        "2024-01-05" EventKind.expense "Broken import" "other" JsNum.nan
        (some "e10")).amount = e.amount :=
  c10_amount_passthrough [c10Expense] (daysFromCivil 2024 1 1) (daysFromCivil 2024 2 1)
    _ (by decide)

/-! ## Claim C2 -/

theorem filter_getLast?_eq_reverse_find? {α : Type} (p : α → Bool) (l : List α) :
    (l.filter p).getLast? = l.reverse.find? p := by
  induction l with
  | nil => rfl
  | cons a t ih =>
    rw [List.reverse_cons, List.find?_append, List.filter_cons]
    by_cases hp : p a = true
    · rw [if_pos hp]
      cases hft : (t.filter p).getLast? with
      | none =>
        have ht : t.filter p = [] := by
          cases hfe : t.filter p with
          | nil => rfl
          | cons x xs =>
            rw [hfe] at hft
            exact absurd hft (by simp [List.getLast?_cons])
        rw [← ih, hft, List.getLast?_cons, ht]
        simp [List.find?, hp]
      | some x =>
        rw [List.getLast?_cons, ← ih, hft]
        simp [Option.or]
    · rw [if_neg hp]
      rw [ih]
      cases hf : t.reverse.find? p with
      | none => simp [List.find?, hp]
      | some x => rfl

def c2Rows : List ForecastRow :=
  [{ id := "r1", date := "2024-01-05", type := EventKind.expense, item := "x",
     category := "other", amount := JsNum.num 1, sourceId := Option.none,
     runningBalance := JsNum.num 100 },
   { id := "r2", date := "2024-01-10", type := EventKind.expense, item := "y",
     category := "other", amount := JsNum.num 1, sourceId := Option.none,
     runningBalance := JsNum.num 80 }]

theorem foldl_jsMin_finite :
    ∀ (rows : List ForecastRow) (q0 : ℚ),
      (∀ r ∈ rows, JsNum.isFinite r.runningBalance = true) →
      ∃ qmin : ℚ,
        rows.foldl (fun m row => JsNum.jsMin m row.runningBalance) (JsNum.num q0) =
          JsNum.num qmin ∧
        qmin ≤ q0 ∧ (∀ r ∈ rows, qmin ≤ r.runningBalance.toQ) ∧
        (qmin = q0 ∨ ∃ r ∈ rows, r.runningBalance.toQ = qmin) := by
  intro rows
  induction rows with
  | nil =>
    intro q0 _
    exact ⟨q0, rfl, le_refl q0, by simp, Or.inl rfl⟩
  | cons r rest ih =>
    intro q0 hfin
    have hr : JsNum.isFinite r.runningBalance = true := hfin r (List.mem_cons_self r rest)
    obtain ⟨b, hb⟩ : ∃ b : ℚ, r.runningBalance = JsNum.num b := by
      cases hrb : r.runningBalance with
      | num q => exact ⟨q, rfl⟩
      | nan => rw [hrb] at hr; exact absurd hr (by simp [JsNum.isFinite])
      | inf => rw [hrb] at hr; exact absurd hr (by simp [JsNum.isFinite])
      | ninf => rw [hrb] at hr; exact absurd hr (by simp [JsNum.isFinite])
    have hstep : List.foldl (fun m row => JsNum.jsMin m row.runningBalance)
        (JsNum.num q0) (r :: rest) =
        List.foldl (fun m row => JsNum.jsMin m row.runningBalance)
          (JsNum.num (min q0 b)) rest := by
      rw [List.foldl_cons, hb, JsNum.jsMin_num]
    obtain ⟨qmin, heq, hle, hall, hcase⟩ :=
      ih (min q0 b) (fun x hx => hfin x (List.mem_cons_of_mem r hx))
    refine ⟨qmin, by rw [hstep]; exact heq, le_trans hle (min_le_left q0 b), ?_, ?_⟩
    · intro x hx
      rcases List.mem_cons.mp hx with hx1 | hx2
      · subst hx1
        rw [hb]
        exact le_trans hle (min_le_right q0 b)
      · exact hall x hx2
    · rcases hcase with hc | ⟨x, hx, hqx⟩
      · rcases le_total q0 b with hq | hq
        · exact Or.inl (by rw [hc]; exact min_eq_left hq)
        · refine Or.inr ⟨r, List.mem_cons_self r rest, ?_⟩
          rw [hb, hc]
          show b = min q0 b
          exact (min_eq_right hq).symm
      · exact Or.inr ⟨x, List.mem_cons_of_mem r hx, hqx⟩

/-- C2: `computeNextPaydayMetrics` reports the requested payday date;
balance-on-payday is the running balance of the last row dated `≤` the
payday (falling back to the starting balance when no row qualifies); for
finite inputs the lowest-before-payday figure is exactly the minimum of the
starting balance and the balances of all rows dated strictly before payday,
and safe-to-spend is that minimum less the buffer (possibly negative).  The
second half checks the concrete spec example: rows at balances 100 and 80,
payday 2024-01-10, start 50, buffer 20 give 80, 50 and 30. -/
theorem c2_payday_metrics :
    (∀ (rows : List ForecastRow) (d : String) (buf sb : JsNum),
      (computeNextPaydayMetrics rows d buf sb).nextPaydayDate = d ∧
      (computeNextPaydayMetrics rows d buf sb).balanceOnNextPayday =
        ((rows.reverse.find? (fun r => strLeB r.date d)).map ForecastRow.runningBalance).getD sb ∧
      (∀ q0 qb : ℚ, sb = JsNum.num q0 → buf = JsNum.num qb →
        rows.all (fun r => JsNum.isFinite r.runningBalance) = true →
        ∃ qmin : ℚ,
          (computeNextPaydayMetrics rows d buf sb).lowestBalanceBeforeNextPayday =
            JsNum.num qmin ∧
          (computeNextPaydayMetrics rows d buf sb).safeToSpendUntilNextPayday =
            JsNum.num (qmin - qb) ∧
          qmin ≤ q0 ∧
          (∀ r ∈ rows, strLtB r.date d = true → qmin ≤ r.runningBalance.toQ) ∧
          (qmin = q0 ∨ ∃ r ∈ rows, strLtB r.date d = true ∧ r.runningBalance.toQ = qmin))) ∧
    ((computeNextPaydayMetrics c2Rows "2024-01-10" (JsNum.num 20)
        (JsNum.num 50)).balanceOnNextPayday = JsNum.num 80 ∧
     (computeNextPaydayMetrics c2Rows "2024-01-10" (JsNum.num 20)
        (JsNum.num 50)).lowestBalanceBeforeNextPayday = JsNum.num 50 ∧
     (computeNextPaydayMetrics c2Rows "2024-01-10" (JsNum.num 20)
        (JsNum.num 50)).safeToSpendUntilNextPayday = JsNum.num 30) := by
  constructor
  · intro rows d buf sb
    refine ⟨rfl, ?_, ?_⟩
    · show (match (rows.filter (fun row => strLeB row.date d)).getLast? with
        | some row => row.runningBalance
        | Option.none => sb) = _
      rw [filter_getLast?_eq_reverse_find?]
      cases rows.reverse.find? (fun r => strLeB r.date d) with
      | none => rfl
      | some row => rfl
    · intro q0 qb hsb hbuf hall
      have hallm : ∀ r ∈ rows, JsNum.isFinite r.runningBalance = true :=
        List.all_eq_true.mp hall
      have hfilter : ∀ r ∈ rows.filter (fun row => strLtB row.date d),
          JsNum.isFinite r.runningBalance = true :=
        fun r hr => hallm r (List.mem_filter.mp hr).1
      obtain ⟨qmin, heq, hle, hfall, hcase⟩ :=
        foldl_jsMin_finite (rows.filter (fun row => strLtB row.date d)) q0 hfilter
      refine ⟨qmin, ?_, ?_, hle, ?_, ?_⟩
      · show (rows.filter (fun row => strLtB row.date d)).foldl
            (fun m row => JsNum.jsMin m row.runningBalance) sb = JsNum.num qmin
        rw [hsb]
        exact heq
      · show JsNum.sub ((rows.filter (fun row => strLtB row.date d)).foldl
            (fun m row => JsNum.jsMin m row.runningBalance) sb) buf = JsNum.num (qmin - qb)
        rw [hsb, heq, hbuf, JsNum.sub_num]
      · intro r hr hlt
        exact hfall r (List.mem_filter.mpr ⟨hr, hlt⟩)
      · rcases hcase with hc | ⟨r, hr, hqr⟩
        · exact Or.inl hc
        · have := List.mem_filter.mp hr
          exact Or.inr ⟨r, this.1, this.2, hqr⟩
  · refine ⟨by decide, by decide, ?_⟩
    have hlow : (computeNextPaydayMetrics c2Rows "2024-01-10" (JsNum.num 20)
        (JsNum.num 50)).lowestBalanceBeforeNextPayday = JsNum.num 50 := by decide
    have hsafe : (computeNextPaydayMetrics c2Rows "2024-01-10" (JsNum.num 20)
        (JsNum.num 50)).safeToSpendUntilNextPayday =
        JsNum.sub ((computeNextPaydayMetrics c2Rows "2024-01-10" (JsNum.num 20)
          (JsNum.num 50)).lowestBalanceBeforeNextPayday) (JsNum.num 20) := rfl
    rw [hsafe, hlow, JsNum.sub_num]
    norm_num

theorem c2_payday_metrics_witness :
    ∃ qmin : ℚ,
      (computeNextPaydayMetrics c2Rows "2024-01-10" (JsNum.num 20)
        (JsNum.num 50)).lowestBalanceBeforeNextPayday = JsNum.num qmin ∧
      (computeNextPaydayMetrics c2Rows "2024-01-10" (JsNum.num 20)
        (JsNum.num 50)).safeToSpendUntilNextPayday = JsNum.num (qmin - 20) ∧
      qmin ≤ 50 ∧
      (∀ r ∈ c2Rows, strLtB r.date "2024-01-10" = true → qmin ≤ r.runningBalance.toQ) ∧
      (qmin = 50 ∨ ∃ r ∈ c2Rows, strLtB r.date "2024-01-10" = true ∧
        r.runningBalance.toQ = qmin) :=
  (c2_payday_metrics.1 c2Rows "2024-01-10" (JsNum.num 20) (JsNum.num 50)).2.2 50 20
    rfl rfl (by decide)

/-! ## Claim C3 -/

theorem incomeWalk_succ (amount : JsNum) (frequency : PayFrequency) (hs he : Int)
    (fuel : Nat) (cursor : Int) (i : Nat) :
    incomeWalk amount frequency hs he (fuel + 1) cursor i =
      if he < cursor then []
      else
        (if hs ≤ cursor then
          [{ id := "income-" ++ toISODate cursor ++ "-" ++ toString i
             date := toISODate cursor
             type := EventKind.income
             item := "Paycheck"
             category := "income"
             amount := amount
             sourceId := Option.none }]
         else []) ++
        incomeWalk amount frequency hs he fuel (advanceIncomeDate cursor frequency) (i + 1) :=
  rfl

theorem incomeWalk_length_le (amount : JsNum) (frequency : PayFrequency) (hs he : Int) :
    ∀ (fuel : Nat) (cursor : Int) (i : Nat),
      (incomeWalk amount frequency hs he fuel cursor i).length ≤ fuel := by
  intro fuel
  induction fuel with
  | zero => intro cursor i; simp [incomeWalk]
  | succ fuel ih =>
    intro cursor i
    rw [incomeWalk_succ]
    by_cases hlt : he < cursor
    · simp [hlt]
    · rw [if_neg hlt, List.length_append]
      have h1 : (if hs ≤ cursor then
          [{ id := "income-" ++ toISODate cursor ++ "-" ++ toString i
             date := toISODate cursor
             type := EventKind.income
             item := "Paycheck"
             category := "income"
             amount := amount
             sourceId := Option.none : ForecastEvent }]
         else []).length ≤ 1 := by
        split <;> simp
      have h2 := ih (advanceIncomeDate cursor frequency) (i + 1)
      omega

theorem expenseWalkEmitted_length (e : Expense) (hs : Int) (i : Nat) (cursor : Option Int) :
    (match cursor with
      | some t =>
        if hs ≤ t then
          [{ id := "expense-" ++ e.id ++ "-" ++ toISODate t ++ "-" ++ toString i
             date := toISODate t
             type := EventKind.expense
             item := e.name
             category := e.category
             amount := e.amount
             sourceId := some e.id : ForecastEvent }]
        else []
      | Option.none => ([] : List ForecastEvent)).length ≤ 1 := by
  rcases cursor with _ | t
  · simp
  · dsimp only
    split <;> simp

theorem expenseWalk_length_le (e : Expense) (maxOcc : Option Nat) (hs he : Int) :
    ∀ (fuel : Nat) (cursor : Option Int) (i occIdx : Nat),
      (expenseWalk e maxOcc hs he fuel cursor i occIdx).length ≤ fuel := by
  intro fuel
  induction fuel with
  | zero => intro cursor i occIdx; simp [expenseWalk]
  | succ fuel ih =>
    intro cursor i occIdx
    rcases cursor with _ | t
    · rw [expenseWalk_none_cursor]
      simp
    · by_cases hpast : he < t
      · rw [expenseWalk_past_horizon e maxOcc hs he t hpast]
        simp
      · rw [expenseWalk_succ]
        dsimp only
        have hemit := expenseWalkEmitted_length e hs i (some t)
        dsimp only at hemit
        cases maxOcc with
        | none =>
          rw [if_neg (by simp), if_neg (by simpa using hpast)]
          by_cases hrep : e.repeatRule = ExpenseRepeat.none
          · rw [if_pos hrep]
            omega
          · rw [if_neg hrep, List.length_append]
            have h2 := ih (Option.map (fun u => advanceExpenseDate u e.repeatRule) (some t))
              (i + 1) (occIdx + 1)
            omega
        | some m =>
          by_cases hcap : m ≤ occIdx
          · rw [if_pos (by simpa using hcap)]
            simp
          · rw [if_neg (by simpa using hcap), if_neg (by simpa using hpast)]
            by_cases hrep : e.repeatRule = ExpenseRepeat.none
            · rw [if_pos hrep]
              omega
            · rw [if_neg hrep, List.length_append]
              have h2 := ih (Option.map (fun u => advanceExpenseDate u e.repeatRule) (some t))
                (i + 1) (occIdx + 1)
              omega

theorem generateIncomeEvents_length_le (config : PaycheckConfig) (hs he : Int) :
    (generateIncomeEvents config hs he).length ≤ 5000 := by
  unfold generateIncomeEvents
  by_cases h1 : config.nextPayDate = ""
  · simp [h1]
  · rw [if_neg h1]
    by_cases h2 : ¬ (JsNum.isFinite (computeNetPay config) = true)
    · rw [if_pos h2]
      simp
    · rw [if_neg h2]
      cases parseISODate config.nextPayDate with
      | none => simp
      | some c0 => exact incomeWalk_length_le _ _ _ _ 5000 c0 0

theorem generateExpenseEvents_fixed_length_le (e : Expense) (hs he : Int)
    (hvar : variableModeActive e = false) :
    (generateExpenseEvents [e] hs he).length ≤ 5000 := by
  rw [generateExpenseEvents_singleton]
  unfold expenseEventsFor
  rw [if_neg (by simp [hvar])]
  exact expenseWalk_length_le e (maxOccurrencesOf e) hs he 5000 _ 0 0

theorem expenseWalk_weekly_bound (e : Expense) (hs he : Int)
    (hrep : e.repeatRule = ExpenseRepeat.weekly) :
    ∀ (fuel : Nat) (c : Int) (i occIdx : Nat), c ≤ he →
      (expenseWalk e Option.none hs he fuel (some c) i occIdx).length ≤
        (he - max c hs).toNat / 7 + 1 := by
  intro fuel
  induction fuel with
  | zero => intro c i occIdx hc; simp [expenseWalk]
  | succ fuel ih =>
    intro c i occIdx hc
    rw [expenseWalk_succ]
    dsimp only [Option.map]
    rw [if_neg (by simp), if_neg (by simpa using not_lt.mpr hc),
      if_neg (by simp [hrep])]
    rw [List.length_append]
    have hadv : advanceExpenseDate c e.repeatRule = c + 7 := by rw [hrep]; rfl
    rw [hadv]
    by_cases hc7 : c + 7 ≤ he
    · have htail := ih (c + 7) (i + 1) (occIdx + 1) hc7
      by_cases hhs : hs ≤ c
      · rw [max_eq_left hhs]
        rw [max_eq_left (le_trans hhs (by omega))] at htail
        rw [if_pos hhs]
        simp only [List.length_singleton]
        omega
      · rw [max_eq_right (le_of_lt (not_le.mp hhs))]
        rw [if_neg hhs]
        simp only [List.length_nil]
        have h1 : hs ≤ max (c + 7) hs := le_max_right _ _
        have h2 : (he - max (c + 7) hs).toNat ≤ (he - hs).toNat :=
          Int.toNat_le_toNat (by omega)
        have h3 := Nat.div_le_div_right (c := 7) h2
        omega
    · rw [expenseWalk_past_horizon e Option.none hs he (c + 7) (by omega)]
      simp only [List.length_nil]
      have hemit := expenseWalkEmitted_length e hs i (some c)
      dsimp only at hemit
      omega

theorem generateExpenseEvents_weekly_bound (e : Expense) (hs he : Int)
    (hvar : variableModeActive e = false)
    (hrep : e.repeatRule = ExpenseRepeat.weekly)
    (hunbounded : maxOccurrencesOf e = Option.none)
    (hhorizon : he - hs ≤ 366) :
    (generateExpenseEvents [e] hs he).length ≤ 53 := by
  rw [generateExpenseEvents_singleton]
  unfold expenseEventsFor
  rw [if_neg (by simp [hvar]), hunbounded]
  cases hp : parseISODate e.firstDueDate with
  | none =>
    rw [expenseWalk_none_cursor]
    simp
  | some c =>
    by_cases hch : c ≤ he
    · have hb := expenseWalk_weekly_bound e hs he hrep 5000 c 0 0 hch
      have h1 : hs ≤ max c hs := le_max_right _ _
      have h2 : (he - max c hs).toNat ≤ 366 := by
        rw [Int.toNat_le]
        omega
      have h3 := Nat.div_le_div_right (c := 7) h2
      omega
    · rw [expenseWalk_past_horizon e Option.none hs he c (not_le.mp hch)]
      simp

/-- C3: every recurrence walk in the income and fixed-schedule expense
generators is capped at 5000 iterations and hence emits at most 5000 events
per stream on every input (the walks are structurally fuel-bounded, so they
terminate even when the repeat step does not advance the date); moreover a
fixed-schedule weekly expense with no effective `repeatCount` over a horizon
of at most 366 days yields at most 53 occurrences. -/
theorem c3_iteration_cap :
    (∀ (config : PaycheckConfig) (hs he : Int),
      (generateIncomeEvents config hs he).length ≤ 5000) ∧
    (∀ (e : Expense) (hs he : Int), variableModeActive e = false →
      (generateExpenseEvents [e] hs he).length ≤ 5000) ∧
    (∀ (e : Expense) (hs he : Int), variableModeActive e = false →
      e.repeatRule = ExpenseRepeat.weekly → maxOccurrencesOf e = Option.none →
      he - hs ≤ 366 → (generateExpenseEvents [e] hs he).length ≤ 53) :=
  ⟨generateIncomeEvents_length_le,
   fun e hs he hvar => generateExpenseEvents_fixed_length_le e hs he hvar,
   fun e hs he hvar hrep hub hhor =>
     generateExpenseEvents_weekly_bound e hs he hvar hrep hub hhor⟩

def c3Expense : Expense :=
  { id := "e3"
    name := "Groceries"
    amount := JsNum.num 60
    firstDueDate := "2024-01-03"
    variableDatesEnabled := false
    variableDueDates := Option.none
    repeatCount := Option.none
    highlightLastEvent := Option.none
    repeatRule := ExpenseRepeat.weekly
    category := "food"
    notes := Option.none }

def c3Config : PaycheckConfig :=
  { c4Config with grossPayAmount := some (JsNum.num 2000) }

theorem c3_iteration_cap_witness :
    (generateIncomeEvents c3Config (daysFromCivil 2024 1 1)
      (daysFromCivil 2024 12 31)).length ≤ 5000 ∧
    (generateExpenseEvents [c3Expense] (daysFromCivil 2024 1 1)
      (daysFromCivil 2024 12 31)).length ≤ 5000 ∧
    (generateExpenseEvents [c3Expense] (daysFromCivil 2024 1 1)
      (daysFromCivil 2024 12 31)).length ≤ 53 :=
  ⟨c3_iteration_cap.1 c3Config (daysFromCivil 2024 1 1) (daysFromCivil 2024 12 31),
   c3_iteration_cap.2.1 c3Expense (daysFromCivil 2024 1 1) (daysFromCivil 2024 12 31)
     (by decide),
   c3_iteration_cap.2.2 c3Expense (daysFromCivil 2024 1 1) (daysFromCivil 2024 12 31)
     (by decide) (by decide) (by decide) (by decide)⟩

/-! ## Claim C1: order theory for the comparator -/

theorem strCmp_le_zero_iff (s t : String) : strCmp s t ≤ 0 ↔ strLtB t s = false := by
  unfold strCmp
  rcases Bool.eq_false_or_eq_true (strLtB s t) with hst | hst
  · rw [hst]
    simp only [if_true]
    constructor
    · intro _
      exact strLtB_asymm hst
    · intro _
      norm_num
  · rw [hst]
    simp only [Bool.false_eq_true, if_false]
    rcases Bool.eq_false_or_eq_true (strLtB t s) with hts | hts
    · rw [hts]
      simp
    · rw [hts]
      simp

theorem strLtB_false_iff_of_ne {s t : String} (h : s ≠ t) :
    strLtB t s = false ↔ strLtB s t = true := by
  constructor
  · intro hts
    rcases Bool.eq_false_or_eq_true (strLtB s t) with hst | hst
    · exact hst
    · exact absurd (strLtB_conn hst hts) h
  · exact strLtB_asymm

/-- The rank the comparator gives an event type: income sorts before
expense. -/
def eventRank (e : ForecastEvent) : Nat :=
  if e.type = EventKind.income then 0 else 1

/-- The category key the comparator actually compares: categories matter only
between two expenses. -/
def eventCatKey (e : ForecastEvent) : String :=
  if e.type = EventKind.expense then e.category else ""

/-- The comparator order as an explicit four-level lexicographic order. -/
def eventLex (a b : ForecastEvent) : Prop :=
  strLtB a.date b.date = true ∨ (a.date = b.date ∧
    (eventRank a < eventRank b ∨ (eventRank a = eventRank b ∧
      (strLtB (eventCatKey a) (eventCatKey b) = true ∨ (eventCatKey a = eventCatKey b ∧
        strLeB a.item b.item = true)))))

theorem strLeB_iff (s t : String) : strLeB s t = true ↔ strLtB t s = false := by
  simp [strLeB]

theorem eventLE_iff_lex (a b : ForecastEvent) : eventLE a b ↔ eventLex a b := by
  unfold eventLE compareEvents eventLex eventRank eventCatKey
  by_cases hd : a.date = b.date
  · rw [if_neg (by simpa using hd)]
    cases hat : a.type <;> cases hbt : b.type
    · rw [if_neg (by simp), if_neg (by simp)]
      simp [hd, strCmp_le_zero_iff, strLeB_iff, strLtB_irrefl]
    · rw [if_pos (by simp)]
      simp [hd, strLtB_irrefl]
    · rw [if_pos (by simp)]
      simp [hd, strLtB_irrefl]
    · rw [if_neg (by simp)]
      by_cases hcat : a.category = b.category
      · rw [if_neg (by simp [hcat])]
        simp [hd, hcat, strCmp_le_zero_iff, strLeB_iff, strLtB_irrefl]
      · rw [if_pos ⟨rfl, rfl, hcat⟩]
        simp [hd, hcat, strCmp_le_zero_iff, strLtB_false_iff_of_ne hcat, strLtB_irrefl]
  · rw [if_pos hd]
    simp [hd, strCmp_le_zero_iff, strLtB_false_iff_of_ne hd]

theorem lexStr_trans {x y z : String} {P Q R : Prop}
    (hxy : strLtB x y = true ∨ (x = y ∧ P))
    (hyz : strLtB y z = true ∨ (y = z ∧ Q))
    (hPQR : P → Q → R) :
    strLtB x z = true ∨ (x = z ∧ R) := by
  rcases hxy with h1 | ⟨he1, hp⟩
  · rcases hyz with h2 | ⟨he2, _⟩
    · exact Or.inl (strLtB_trans h1 h2)
    · exact Or.inl (he2 ▸ h1)
  · rcases hyz with h2 | ⟨he2, hq⟩
    · subst he1
      exact Or.inl h2
    · exact Or.inr ⟨he1.trans he2, hPQR hp hq⟩

theorem lexNat_trans {x y z : Nat} {P Q R : Prop}
    (hxy : x < y ∨ (x = y ∧ P)) (hyz : y < z ∨ (y = z ∧ Q)) (hPQR : P → Q → R) :
    x < z ∨ (x = z ∧ R) := by
  rcases hxy with h1 | ⟨he1, hp⟩ <;> rcases hyz with h2 | ⟨he2, hq⟩
  · exact Or.inl (by omega)
  · exact Or.inl (by omega)
  · exact Or.inl (by omega)
  · exact Or.inr ⟨he1.trans he2, hPQR hp hq⟩

theorem lexStr_total {x y : String} {P Q : Prop} (h : P ∨ Q) :
    (strLtB x y = true ∨ (x = y ∧ P)) ∨ (strLtB y x = true ∨ (y = x ∧ Q)) := by
  rcases Bool.eq_false_or_eq_true (strLtB x y) with hxy | hxy
  · exact Or.inl (Or.inl hxy)
  · rcases Bool.eq_false_or_eq_true (strLtB y x) with hyx | hyx
    · exact Or.inr (Or.inl hyx)
    · have hxe : x = y := strLtB_conn hxy hyx
      rcases h with hp | hq
      · exact Or.inl (Or.inr ⟨hxe, hp⟩)
      · exact Or.inr (Or.inr ⟨hxe.symm, hq⟩)

theorem lexNat_total {x y : Nat} {P Q : Prop} (h : P ∨ Q) :
    (x < y ∨ (x = y ∧ P)) ∨ (y < x ∨ (y = x ∧ Q)) := by
  rcases Nat.lt_trichotomy x y with hlt | heq | hgt
  · exact Or.inl (Or.inl hlt)
  · rcases h with hp | hq
    · exact Or.inl (Or.inr ⟨heq, hp⟩)
    · exact Or.inr (Or.inr ⟨heq.symm, hq⟩)
  · exact Or.inr (Or.inl hgt)

theorem eventLex_trans {a b c : ForecastEvent} (h1 : eventLex a b) (h2 : eventLex b c) :
    eventLex a c := by
  unfold eventLex at h1 h2 ⊢
  refine lexStr_trans h1 h2 ?_
  intro p q
  refine lexNat_trans p q ?_
  intro p2 q2
  refine lexStr_trans p2 q2 ?_
  intro p3 q3
  exact strLeB_trans p3 q3

theorem eventLex_total (a b : ForecastEvent) : eventLex a b ∨ eventLex b a := by
  unfold eventLex
  refine lexStr_total ?_
  refine lexNat_total ?_
  refine lexStr_total ?_
  exact strLeB_total a.item b.item

instance : IsTrans ForecastEvent eventLE :=
  ⟨fun a b c h1 h2 => (eventLE_iff_lex a c).mpr
    (eventLex_trans ((eventLE_iff_lex a b).mp h1) ((eventLE_iff_lex b c).mp h2))⟩

instance : IsTotal ForecastEvent eventLE :=
  ⟨fun a b => by
    rcases eventLex_total a b with h | h
    · exact Or.inl ((eventLE_iff_lex a b).mpr h)
    · exact Or.inr ((eventLE_iff_lex b a).mpr h)⟩

/-- The order described by the specification: date ascending; on equal dates
income before expense; between expenses, category ascending; every remaining
tie broken by item name ascending. -/
def specLE (a b : ForecastEvent) : Prop :=
  strLtB a.date b.date = true ∨
  (a.date = b.date ∧
    ((a.type = EventKind.income ∧ b.type = EventKind.expense) ∨
     (a.type = b.type ∧
       ((a.type = EventKind.expense ∧ strLtB a.category b.category = true) ∨
        ((a.type = EventKind.income ∨ a.category = b.category) ∧
          strLeB a.item b.item = true)))))

theorem eventKind_not_income (k : EventKind) (hk : ¬ k = EventKind.income) :
    k = EventKind.expense := by
  cases k with
  | income => exact absurd rfl hk
  | expense => rfl

theorem eventLE_specLE {a b : ForecastEvent} (h : eventLE a b) : specLE a b := by
  rw [eventLE_iff_lex] at h
  unfold eventLex at h
  unfold specLE
  rcases h with h1 | ⟨hd, hrest⟩
  · exact Or.inl h1
  · refine Or.inr ⟨hd, ?_⟩
    rcases hrest with hrank | ⟨hrankeq, hrest2⟩
    · unfold eventRank at hrank
      have hai : a.type = EventKind.income := by
        by_contra hno
        rw [if_neg hno] at hrank
        by_cases hb : b.type = EventKind.income
        · rw [if_pos hb] at hrank
          omega
        · rw [if_neg hb] at hrank
          omega
      have hbe : b.type = EventKind.expense := by
        by_contra hno
        have hbi : b.type = EventKind.income := by
          cases hx : b.type with
          | income => rfl
          | expense => exact absurd hx hno
        rw [if_pos hai, if_pos hbi] at hrank
        omega
      exact Or.inl ⟨hai, hbe⟩
    · unfold eventRank at hrankeq
      have htype : a.type = b.type := by
        by_cases ha2 : a.type = EventKind.income <;> by_cases hb2 : b.type = EventKind.income
        · rw [ha2, hb2]
        · rw [if_pos ha2, if_neg hb2] at hrankeq
          omega
        · rw [if_neg ha2, if_pos hb2] at hrankeq
          omega
        · rw [eventKind_not_income a.type ha2, eventKind_not_income b.type hb2]
      refine Or.inr ⟨htype, ?_⟩
      unfold eventCatKey at hrest2
      by_cases hat2 : a.type = EventKind.income
      · have hbt2 : b.type = EventKind.income := htype ▸ hat2
        rw [hat2, hbt2] at hrest2
        rw [if_neg (by simp), if_neg (by simp)] at hrest2
        rw [strLtB_irrefl] at hrest2
        simp only [Bool.false_eq_true, false_or, true_and] at hrest2
        exact Or.inr ⟨Or.inl hat2, hrest2⟩
      · have hat3 : a.type = EventKind.expense := eventKind_not_income a.type hat2
        have hbt3 : b.type = EventKind.expense := htype ▸ hat3
        rw [hat3, hbt3] at hrest2
        rw [if_pos rfl, if_pos rfl] at hrest2
        rcases hrest2 with hlt | ⟨hcat, hitem⟩
        · exact Or.inl ⟨hat3, hlt⟩
        · exact Or.inr ⟨Or.inr hcat, hitem⟩

/-- The step of the running-balance fold: add income amounts, subtract
expense amounts. -/
def balanceStep (acc : JsNum) (ev : ForecastEvent) : JsNum :=
  if ev.type = EventKind.income then JsNum.add acc ev.amount else JsNum.sub acc ev.amount

theorem annotateRows_map_toEvent (l : List ForecastEvent) :
    ∀ sb : JsNum, (annotateRows sb l).map ForecastRow.toForecastEvent = l := by
  induction l with
  | nil => intro sb; rfl
  | cons e rest ih =>
    intro sb
    simp [annotateRows, ih]

theorem annotateRows_balance (l : List ForecastEvent) :
    ∀ (sb : JsNum) (i : Nat),
      ((annotateRows sb l)[i]?).map ForecastRow.runningBalance =
        (if i < l.length then some (List.foldl balanceStep sb (l.take (i + 1)))
         else Option.none) := by
  induction l with
  | nil => intro sb i; simp [annotateRows]
  | cons e rest ih =>
    intro sb i
    cases i with
    | zero =>
      simp [annotateRows, balanceStep]
    | succ i =>
      show ((annotateRows sb (e :: rest))[i + 1]?).map ForecastRow.runningBalance = _
      rw [show annotateRows sb (e :: rest) =
          ForecastRow.mk e (balanceStep sb e) :: annotateRows (balanceStep sb e) rest from rfl]
      rw [List.getElem?_cons_succ, ih (balanceStep sb e) i]
      by_cases hlt : i < rest.length
      · rw [if_pos hlt, if_pos (by simp; omega)]
        rfl
      · rw [if_neg hlt, if_neg (by simp; omega)]

/-- C1: `buildForecast` returns a permutation of its input annotated in
sorted order — sorted by the spec's total order (`specLE`: date ascending,
income before expense on equal dates, category then item for remaining
ties) — and the `i`-th row's `runningBalance` is the left fold of
`startingBalance` through the first `i + 1` sorted events, adding income and
subtracting expense amounts (the balance after the event posts).  The last
conjunct instantiates the spec's example: an income and an expense on the
same date always come out income first, the income posting to the balance
before the expense. -/
theorem c1_buildForecast_order_and_fold :
    (∀ (events : List ForecastEvent) (sb : JsNum),
      ((buildForecast events sb).map ForecastRow.toForecastEvent).Perm events) ∧
    (∀ (events : List ForecastEvent) (sb : JsNum),
      List.Pairwise specLE ((buildForecast events sb).map ForecastRow.toForecastEvent)) ∧
    (∀ (events : List ForecastEvent) (sb : JsNum) (i : Nat),
      ((buildForecast events sb)[i]?).map ForecastRow.runningBalance =
        (if i < events.length then
          some (List.foldl balanceStep sb
            (((buildForecast events sb).map ForecastRow.toForecastEvent).take (i + 1)))
         else Option.none)) ∧
    (∀ (sb : JsNum) (id1 it1 c1 : String) (a1 : JsNum) (s1 : Option String)
        (id2 it2 c2 : String) (a2 : JsNum) (s2 : Option String) (d : String),
      buildForecast
        [ForecastEvent.mk id2 d EventKind.expense it2 c2 a2 s2,
         ForecastEvent.mk id1 d EventKind.income it1 c1 a1 s1] sb =
      [ForecastRow.mk (ForecastEvent.mk id1 d EventKind.income it1 c1 a1 s1)
         (JsNum.add sb a1),
       ForecastRow.mk (ForecastEvent.mk id2 d EventKind.expense it2 c2 a2 s2)
         (JsNum.sub (JsNum.add sb a1) a2)]) := by
  refine ⟨?_, ?_, ?_, ?_⟩
  · intro events sb
    rw [buildForecast, annotateRows_map_toEvent]
    exact List.perm_insertionSort eventLE events
  · intro events sb
    rw [buildForecast, annotateRows_map_toEvent]
    exact List.Pairwise.imp (fun h => eventLE_specLE h)
      (List.sorted_insertionSort eventLE events)
  · intro events sb i
    rw [buildForecast, annotateRows_map_toEvent, annotateRows_balance]
    rw [(List.perm_insertionSort eventLE events).length_eq]
  · intro sb id1 it1 c1 a1 s1 id2 it2 c2 a2 s2 d
    have hle : ¬ eventLE (ForecastEvent.mk id2 d EventKind.expense it2 c2 a2 s2)
        (ForecastEvent.mk id1 d EventKind.income it1 c1 a1 s1) := by
      unfold eventLE compareEvents
      simp
    have hsort : List.insertionSort eventLE
        [ForecastEvent.mk id2 d EventKind.expense it2 c2 a2 s2,
         ForecastEvent.mk id1 d EventKind.income it1 c1 a1 s1] =
        [ForecastEvent.mk id1 d EventKind.income it1 c1 a1 s1,
         ForecastEvent.mk id2 d EventKind.expense it2 c2 a2 s2] := by
      simp only [List.insertionSort, List.orderedInsert]
      rw [if_neg hle]
    rw [buildForecast, hsort]
    simp [annotateRows]

/-! ## Claim C6 (corrected): the bonus-month map -/

theorem listLtB_nil_right (l : List Char) : listLtB l [] = false := by
  cases l <;> rfl

theorem strLtB_empty_right (s : String) : strLtB s "" = false :=
  listLtB_nil_right s.data

theorem lookupStr_none_iff (m : List (String × String)) (k : String) :
    lookupStr m k = Option.none ↔ k ∉ m.map Prod.fst := by
  induction m with
  | nil => simp [lookupStr]
  | cons p rest ih =>
    obtain ⟨k1, v1⟩ := p
    by_cases hk : k1 = k
    · subst hk
      simp [lookupStr]
    · simp [lookupStr, hk, ih, Ne.symm hk]

theorem mem_of_lookupStr_some {m : List (String × String)} {k v : String}
    (h : lookupStr m k = some v) : (k, v) ∈ m := by
  induction m with
  | nil => simp [lookupStr] at h
  | cons p rest ih =>
    obtain ⟨k1, v1⟩ := p
    by_cases hk : k1 = k
    · subst hk
      rw [lookupStr, if_pos rfl] at h
      simp only [Option.some.injEq] at h
      subst h
      exact List.mem_cons_self _ _
    · rw [lookupStr, if_neg hk] at h
      exact List.mem_cons_of_mem _ (ih h)

theorem lookupStr_some_of_mem {m : List (String × String)} {k v : String}
    (hnd : (m.map Prod.fst).Nodup) (h : (k, v) ∈ m) : lookupStr m k = some v := by
  induction m with
  | nil => simp at h
  | cons p rest ih =>
    obtain ⟨k1, v1⟩ := p
    rw [List.map_cons, List.nodup_cons] at hnd
    rcases List.mem_cons.mp h with h1 | h2
    · rw [Prod.mk.injEq] at h1
      obtain ⟨hk, hv⟩ := h1
      rw [lookupStr, if_pos hk.symm, hv]
    · have hk1 : k1 ≠ k := by
        intro hcon
        subst hcon
        exact hnd.1 (List.mem_map.mpr ⟨(k1, v), h2, rfl⟩)
      rw [lookupStr, if_neg hk1]
      exact ih hnd.2 h2

theorem setStr_keys (m : List (String × String)) (k v : String) :
    (setStr m k v).map Prod.fst =
      if k ∈ m.map Prod.fst then m.map Prod.fst else m.map Prod.fst ++ [k] := by
  induction m with
  | nil => simp [setStr]
  | cons p rest ih =>
    obtain ⟨k1, v1⟩ := p
    by_cases hk : k1 = k
    · subst hk
      simp [setStr]
    · rw [setStr, if_neg hk, List.map_cons, ih, List.map_cons]
      by_cases hmem : k ∈ rest.map Prod.fst
      · rw [if_pos hmem, if_pos (by simp [hmem])]
      · rw [if_neg hmem, if_neg (by simp [hmem, Ne.symm hk])]
        simp

theorem setStr_nodup {m : List (String × String)} (k v : String)
    (hnd : (m.map Prod.fst).Nodup) : ((setStr m k v).map Prod.fst).Nodup := by
  rw [setStr_keys]
  by_cases hmem : k ∈ m.map Prod.fst
  · rw [if_pos hmem]
    exact hnd
  · rw [if_neg hmem]
    simp [List.nodup_append, hnd, hmem]

theorem mem_setStr_iff {m : List (String × String)} {k v k2 v2 : String}
    (hnd : (m.map Prod.fst).Nodup) :
    (k2, v2) ∈ setStr m k v ↔ ((k2 = k ∧ v2 = v) ∨ ((k2, v2) ∈ m ∧ k2 ≠ k)) := by
  induction m with
  | nil => simp [setStr]
  | cons p rest ih =>
    obtain ⟨k1, v1⟩ := p
    rw [List.map_cons, List.nodup_cons] at hnd
    by_cases hk : k1 = k
    · subst hk
      rw [setStr, if_pos rfl]
      constructor
      · intro hm
        rcases List.mem_cons.mp hm with h1 | h2
        · rw [Prod.mk.injEq] at h1
          exact Or.inl ⟨h1.1, h1.2⟩
        · have : k2 ≠ k1 := by
            intro hcon
            subst hcon
            exact hnd.1 (List.mem_map.mpr ⟨(k2, v2), h2, rfl⟩)
          exact Or.inr ⟨List.mem_cons_of_mem _ h2, this⟩
      · intro hm
        rcases hm with ⟨hk2, hv2⟩ | ⟨hmem, hne⟩
        · subst hk2
          subst hv2
          exact List.mem_cons_self _ _
        · rcases List.mem_cons.mp hmem with h1 | h2
          · rw [Prod.mk.injEq] at h1
            exact absurd h1.1 hne
          · exact List.mem_cons_of_mem _ h2
    · rw [setStr, if_neg hk]
      constructor
      · intro hm
        rcases List.mem_cons.mp hm with h1 | h2
        · rw [Prod.mk.injEq] at h1
          refine Or.inr ⟨by rw [h1.1, h1.2]; exact List.mem_cons_self _ _, ?_⟩
          rw [h1.1]
          exact hk
        · rcases (ih hnd.2).mp h2 with ha | hb
          · exact Or.inl ha
          · exact Or.inr ⟨List.mem_cons_of_mem _ hb.1, hb.2⟩
      · intro hm
        rcases hm with ⟨hk2, hv2⟩ | ⟨hmem, hne⟩
        · exact List.mem_cons_of_mem _ ((ih hnd.2).mpr (Or.inl ⟨hk2, hv2⟩))
        · rcases List.mem_cons.mp hmem with h1 | h2
          · rw [h1]
            exact List.mem_cons_self _ _
          · exact List.mem_cons_of_mem _ ((ih hnd.2).mpr (Or.inr ⟨h2, hne⟩))

theorem strLtB_false_trans {x y z : String} (h1 : strLtB y x = false)
    (h2 : strLtB z y = false) : strLtB z x = false := by
  have h3 : strLeB x y = true := by simp [strLeB, h1]
  have h4 : strLeB y z = true := by simp [strLeB, h2]
  have := strLeB_trans h3 h4
  simpa [strLeB] using this

theorem mem_unique_of_nodup {m : List (String × String)} {k v1 v2 : String}
    (hnd : (m.map Prod.fst).Nodup) (h1 : (k, v1) ∈ m) (h2 : (k, v2) ∈ m) : v1 = v2 := by
  have e1 := lookupStr_some_of_mem hnd h1
  have e2 := lookupStr_some_of_mem hnd h2
  rw [e1] at e2
  exact Option.some.inj e2

theorem updateLastPaycheck_nodup {m : List (String × String)} (ev : ForecastEvent)
    (hnd : (m.map Prod.fst).Nodup) :
    (((updateLastPaycheck m ev).map Prod.fst)).Nodup := by
  unfold updateLastPaycheck
  dsimp only
  split
  · exact setStr_nodup _ _ hnd
  · exact hnd

theorem updateLastPaycheck_keys {m : List (String × String)} (ev : ForecastEvent)
    (k : String) :
    k ∈ (updateLastPaycheck m ev).map Prod.fst ↔
      k ∈ m.map Prod.fst ∨ k = monthKeyOf ev.date := by
  unfold updateLastPaycheck
  dsimp only
  cases hl : lookupStr m (monthKeyOf ev.date) with
  | none =>
    have hnm : monthKeyOf ev.date ∉ m.map Prod.fst := (lookupStr_none_iff m _).mp hl
    dsimp only
    rw [if_pos rfl, setStr_keys, if_neg hnm]
    simp
  | some prev =>
    have hmm : monthKeyOf ev.date ∈ m.map Prod.fst :=
      List.mem_map.mpr ⟨(monthKeyOf ev.date, prev), mem_of_lookupStr_some hl, rfl⟩
    dsimp only
    split
    · rw [setStr_keys, if_pos hmm]
      constructor
      · intro h
        exact Or.inl h
      · intro h
        rcases h with h | h
        · exact h
        · rw [h]
          exact hmm
    · constructor
      · intro h
        exact Or.inl h
      · intro h
        rcases h with h | h
        · exact h
        · rw [h]
          exact hmm

theorem updateLastPaycheck_mono {m : List (String × String)} (ev : ForecastEvent)
    {k v : String} (hnd : (m.map Prod.fst).Nodup) (hmem : (k, v) ∈ m) :
    ∃ w, (k, w) ∈ updateLastPaycheck m ev ∧ strLtB w v = false := by
  unfold updateLastPaycheck
  dsimp only
  by_cases hk : k = monthKeyOf ev.date
  · subst hk
    rw [lookupStr_some_of_mem hnd hmem]
    dsimp only
    by_cases hov : (decide (v = "") || strLtB v ev.date) = true
    · rw [if_pos hov]
      refine ⟨ev.date, (mem_setStr_iff hnd).mpr (Or.inl ⟨rfl, rfl⟩), ?_⟩
      rw [Bool.or_eq_true] at hov
      rcases hov with h | h
      · rw [decide_eq_true_eq] at h
        rw [h]
        exact strLtB_empty_right ev.date
      · exact strLtB_asymm h
    · rw [if_neg hov]
      exact ⟨v, hmem, by rw [strLtB_irrefl]⟩
  · cases hl : lookupStr m (monthKeyOf ev.date) with
    | none =>
      dsimp only
      rw [if_pos rfl]
      exact ⟨v, (mem_setStr_iff hnd).mpr (Or.inr ⟨hmem, hk⟩), by rw [strLtB_irrefl]⟩
    | some prev =>
      dsimp only
      by_cases hov : (decide (prev = "") || strLtB prev ev.date) = true
      · rw [if_pos hov]
        exact ⟨v, (mem_setStr_iff hnd).mpr (Or.inr ⟨hmem, hk⟩), by rw [strLtB_irrefl]⟩
      · rw [if_neg hov]
        exact ⟨v, hmem, by rw [strLtB_irrefl]⟩

theorem updateLastPaycheck_dom {m : List (String × String)} (ev : ForecastEvent)
    (hnd : (m.map Prod.fst).Nodup) :
    ∃ w, (monthKeyOf ev.date, w) ∈ updateLastPaycheck m ev ∧
      strLtB w ev.date = false := by
  unfold updateLastPaycheck
  dsimp only
  cases hl : lookupStr m (monthKeyOf ev.date) with
  | none =>
    dsimp only
    rw [if_pos rfl]
    exact ⟨ev.date, (mem_setStr_iff hnd).mpr (Or.inl ⟨rfl, rfl⟩), by rw [strLtB_irrefl]⟩
  | some prev =>
    dsimp only
    by_cases hov : (decide (prev = "") || strLtB prev ev.date) = true
    · rw [if_pos hov]
      exact ⟨ev.date, (mem_setStr_iff hnd).mpr (Or.inl ⟨rfl, rfl⟩), by rw [strLtB_irrefl]⟩
    · rw [if_neg hov]
      refine ⟨prev, mem_of_lookupStr_some hl, ?_⟩
      rcases Bool.eq_false_or_eq_true (strLtB prev ev.date) with hx | hx
      · exact absurd (by rw [hx]; simp : (decide (prev = "") || strLtB prev ev.date) = true) hov
      · exact hx

theorem updateLastPaycheck_src {m : List (String × String)} (ev : ForecastEvent)
    {k v : String} (hnd : (m.map Prod.fst).Nodup)
    (hmem : (k, v) ∈ updateLastPaycheck m ev) :
    (k, v) ∈ m ∨ (k = monthKeyOf ev.date ∧ v = ev.date) := by
  unfold updateLastPaycheck at hmem
  dsimp only at hmem
  split at hmem
  · rcases (mem_setStr_iff hnd).mp hmem with ⟨hk, hv⟩ | ⟨hm, _⟩
    · exact Or.inr ⟨hk, hv⟩
    · exact Or.inl hm
  · exact Or.inl hmem

theorem foldl_update_nodup (evs : List ForecastEvent) (m : List (String × String))
    (hnd : (m.map Prod.fst).Nodup) :
    ((evs.foldl updateLastPaycheck m).map Prod.fst).Nodup := by
  induction evs generalizing m hnd with
  | nil => exact hnd
  | cons ev rest ih => exact ih _ (updateLastPaycheck_nodup ev hnd)

theorem foldl_update_src (evs : List ForecastEvent) (m : List (String × String))
    {k v : String} (hnd : (m.map Prod.fst).Nodup)
    (hmem : (k, v) ∈ evs.foldl updateLastPaycheck m) :
    (k, v) ∈ m ∨ ∃ ev ∈ evs, k = monthKeyOf ev.date ∧ v = ev.date := by
  induction evs generalizing m hnd with
  | nil => exact Or.inl hmem
  | cons ev rest ih =>
    rcases ih _ (updateLastPaycheck_nodup ev hnd) hmem with h | ⟨ev2, hev2, hk, hv⟩
    · rcases updateLastPaycheck_src ev hnd h with h2 | ⟨hk, hv⟩
      · exact Or.inl h2
      · exact Or.inr ⟨ev, List.mem_cons_self _ _, hk, hv⟩
    · exact Or.inr ⟨ev2, List.mem_cons_of_mem _ hev2, hk, hv⟩

theorem foldl_update_mono (evs : List ForecastEvent) (m : List (String × String))
    {k v : String} (hnd : (m.map Prod.fst).Nodup) (hmem : (k, v) ∈ m) :
    ∃ w, (k, w) ∈ evs.foldl updateLastPaycheck m ∧ strLtB w v = false := by
  induction evs generalizing m v hnd hmem with
  | nil => exact ⟨v, hmem, by rw [strLtB_irrefl]⟩
  | cons ev rest ih =>
    obtain ⟨w1, hw1, hlt1⟩ := updateLastPaycheck_mono ev hnd hmem
    obtain ⟨w2, hw2, hlt2⟩ := ih _ (updateLastPaycheck_nodup ev hnd) hw1
    exact ⟨w2, hw2, strLtB_false_trans hlt1 hlt2⟩

theorem foldl_update_dom (evs : List ForecastEvent) (m : List (String × String))
    (hnd : (m.map Prod.fst).Nodup) {ev : ForecastEvent} (hev : ev ∈ evs) :
    ∃ w, (monthKeyOf ev.date, w) ∈ evs.foldl updateLastPaycheck m ∧
      strLtB w ev.date = false := by
  induction evs generalizing m hnd with
  | nil => cases hev
  | cons ev0 rest ih =>
    rcases List.mem_cons.mp hev with h | h
    · subst h
      obtain ⟨w1, hw1, hlt1⟩ := updateLastPaycheck_dom ev hnd
      obtain ⟨w2, hw2, hlt2⟩ :=
        foldl_update_mono rest _ (updateLastPaycheck_nodup ev hnd) hw1
      exact ⟨w2, hw2, strLtB_false_trans hlt1 hlt2⟩
    · exact ih _ (updateLastPaycheck_nodup ev0 hnd) h

theorem lastPaycheckByMonth_nodup (evs : List ForecastEvent) :
    ((lastPaycheckByMonth evs).map Prod.fst).Nodup :=
  foldl_update_nodup evs [] List.nodup_nil

/-- Characterization of the `lastPaycheckByMonth` map: `k` maps to `v` exactly
when `v` is the date of some event whose month key is `k` and no event of that
month has a string-greater date. -/
theorem mem_lastPaycheckByMonth_iff (evs : List ForecastEvent) (k v : String) :
    (k, v) ∈ lastPaycheckByMonth evs ↔
      ((∃ ev ∈ evs, monthKeyOf ev.date = k ∧ ev.date = v) ∧
        ∀ ev ∈ evs, monthKeyOf ev.date = k → strLtB v ev.date = false) := by
  constructor
  · intro hmem
    rcases foldl_update_src evs [] List.nodup_nil hmem with h | ⟨ev, hev, hk, hv⟩
    · exact absurd h (List.not_mem_nil _)
    · refine ⟨⟨ev, hev, hk.symm, hv.symm⟩, ?_⟩
      intro ev2 hev2 hk2
      obtain ⟨w, hw, hlt⟩ := foldl_update_dom evs [] List.nodup_nil hev2
      rw [hk2] at hw
      have hwv : w = v := mem_unique_of_nodup (lastPaycheckByMonth_nodup evs) hw hmem
      rw [← hwv]
      exact hlt
  · rintro ⟨⟨ev, hev, hk, hv⟩, hdom⟩
    obtain ⟨w, hw, hlt⟩ := foldl_update_dom evs [] List.nodup_nil hev
    rw [hk] at hw
    rcases foldl_update_src evs [] List.nodup_nil hw with h | ⟨ev2, hev2, hk2, hv2⟩
    · exact absurd h (List.not_mem_nil _)
    · have hvw : strLtB v w = false := by
        rw [hv2]
        exact hdom ev2 hev2 hk2.symm
      have hwv : strLtB w v = false := by
        rw [← hv]
        exact hlt
      have hweq : w = v := strLtB_conn hwv hvw
      rw [← hweq]
      exact hw

theorem monthKey_of_mem_lastPaycheck {evs : List ForecastEvent} {k v : String}
    (h : (k, v) ∈ lastPaycheckByMonth evs) : monthKeyOf v = k := by
  obtain ⟨⟨ev, _, hk, hv⟩, _⟩ := (mem_lastPaycheckByMonth_iff evs k v).mp h
  rw [← hv]
  exact hk

theorem strCmpLe_trans : ∀ a b c : String × String,
    strCmp a.1 b.1 ≤ 0 → strCmp b.1 c.1 ≤ 0 → strCmp a.1 c.1 ≤ 0 := by
  intro a b c h1 h2
  rw [strCmp_le_zero_iff] at h1 h2 ⊢
  exact strLtB_false_trans h1 h2

theorem strCmpLe_total : ∀ a b : String × String,
    strCmp a.1 b.1 ≤ 0 ∨ strCmp b.1 a.1 ≤ 0 := by
  intro a b
  rw [strCmp_le_zero_iff, strCmp_le_zero_iff]
  rcases Bool.eq_false_or_eq_true (strLtB b.1 a.1) with h | h
  · exact Or.inr (strLtB_asymm h)
  · exact Or.inl h

/-- C6 (amended): `generateBonusEvents` is gated on the coerced bonus amount
comparing `> 0` under JS semantics (so `Infinity` passes even though it is not
finite); when the gate passes, the result is one bonus event per month key in
the income-derived month map — strictly sorted by month key — each dated at
the string-greatest income date of its month and carrying the coerced bonus
amount. -/
theorem c6_bonus_events (config : PaycheckConfig) (incomeEvents : List ForecastEvent) :
    (JsNum.jsGt (bonusAmountOf config) (JsNum.num 0) = false →
      generateBonusEvents config incomeEvents = []) ∧
    (∀ k v : String, (k, v) ∈ lastPaycheckByMonth incomeEvents ↔
      ((∃ ev ∈ incomeEvents, monthKeyOf ev.date = k ∧ ev.date = v) ∧
        ∀ ev ∈ incomeEvents, monthKeyOf ev.date = k → strLtB v ev.date = false)) ∧
    (JsNum.jsGt (bonusAmountOf config) (JsNum.num 0) = true →
      (generateBonusEvents config incomeEvents).Pairwise
        (fun a b => strLtB (monthKeyOf a.date) (monthKeyOf b.date) = true) ∧
      ∀ bev, bev ∈ generateBonusEvents config incomeEvents ↔
        ∃ p ∈ lastPaycheckByMonth incomeEvents,
          bev = { id := "bonus-" ++ p.1
                  date := p.2
                  type := EventKind.income
                  item := "Monthly Bonus"
                  category := "income"
                  amount := bonusAmountOf config
                  sourceId := Option.none }) := by
  refine ⟨?_, fun k v => mem_lastPaycheckByMonth_iff incomeEvents k v, ?_⟩
  · intro hneg
    unfold generateBonusEvents
    dsimp only
    rw [if_pos (by rw [hneg]; exact Bool.false_ne_true)]
  · intro hpos
    haveI : IsTrans (String × String) (fun a b => strCmp a.1 b.1 ≤ 0) := ⟨strCmpLe_trans⟩
    haveI : IsTotal (String × String) (fun a b => strCmp a.1 b.1 ≤ 0) := ⟨strCmpLe_total⟩
    have hsorted := List.sorted_insertionSort (fun a b : String × String => strCmp a.1 b.1 ≤ 0)
      (lastPaycheckByMonth incomeEvents)
    have hperm := List.perm_insertionSort (fun a b : String × String => strCmp a.1 b.1 ≤ 0)
      (lastPaycheckByMonth incomeEvents)
    have hres : generateBonusEvents config incomeEvents =
        (List.insertionSort (fun a b => strCmp a.1 b.1 ≤ 0)
          (lastPaycheckByMonth incomeEvents)).map
          (fun p =>
            { id := "bonus-" ++ p.1
              date := p.2
              type := EventKind.income
              item := "Monthly Bonus"
              category := "income"
              amount := bonusAmountOf config
              sourceId := Option.none }) := by
      unfold generateBonusEvents
      dsimp only
      rw [if_neg (fun hcon => hcon hpos)]
    have hnds : ((List.insertionSort (fun a b : String × String => strCmp a.1 b.1 ≤ 0)
        (lastPaycheckByMonth incomeEvents)).map Prod.fst).Nodup :=
      ((hperm.map Prod.fst).nodup_iff).mpr (lastPaycheckByMonth_nodup incomeEvents)
    have hne : (List.insertionSort (fun a b : String × String => strCmp a.1 b.1 ≤ 0)
        (lastPaycheckByMonth incomeEvents)).Pairwise (fun p q => p.1 ≠ q.1) :=
      (List.pairwise_map).mp hnds
    have hstrict : (List.insertionSort (fun a b : String × String => strCmp a.1 b.1 ≤ 0)
        (lastPaycheckByMonth incomeEvents)).Pairwise
        (fun p q => strLtB p.1 q.1 = true) := by
      refine List.Pairwise.imp ?_ (List.Pairwise.and hsorted hne)
      intro p q h
      rcases Bool.eq_false_or_eq_true (strLtB p.1 q.1) with ht1 | hf1
      · exact ht1
      · exact absurd (strLtB_conn hf1 ((strCmp_le_zero_iff _ _).mp h.1)) h.2
    constructor
    · rw [hres, List.pairwise_map]
      refine List.Pairwise.imp_of_mem ?_ hstrict
      intro p q hp hq h
      obtain ⟨k1, v1⟩ := p
      obtain ⟨k2, v2⟩ := q
      have hkp : monthKeyOf v1 = k1 := monthKey_of_mem_lastPaycheck (hperm.mem_iff.mp hp)
      have hkq : monthKeyOf v2 = k2 := monthKey_of_mem_lastPaycheck (hperm.mem_iff.mp hq)
      dsimp only at h ⊢
      rw [hkp, hkq]
      exact h
    · intro bev
      rw [hres, List.mem_map]
      constructor
      · rintro ⟨p, hp, rfl⟩
        exact ⟨p, hperm.mem_iff.mp hp, rfl⟩
      · rintro ⟨p, hp, rfl⟩
        exact ⟨p, hperm.mem_iff.mpr hp, rfl⟩

/-- A config whose monthly bonus is a positive finite amount. -/
def c6Config : PaycheckConfig :=
  { c4Config with monthlyBonusAmount := some (JsNum.num 250) }

/-- A config whose monthly bonus is positive `Infinity`: truthy and `> 0`
under JS comparison, yet not a finite number. -/
def c6InfConfig : PaycheckConfig :=
  { c4Config with monthlyBonusAmount := some JsNum.inf }

def c6IncomeA : ForecastEvent :=
  { id := "income-0"
    date := "2024-01-05"
    type := EventKind.income
    item := "Paycheck"
    category := "income"
    amount := JsNum.num 2000
    sourceId := Option.none }

def c6IncomeB : ForecastEvent :=
  { c6IncomeA with id := "income-1", date := "2024-01-19" }

def c6IncomeC : ForecastEvent :=
  { c6IncomeA with id := "income-2", date := "2024-02-02" }

/-- C6 counterexample: with `monthlyBonusAmount = Infinity` the configured
bonus is not a finite positive number, yet bonus events ARE emitted — the
code's gate is JS `> 0`, not finiteness, refuting the claim's "skipped
entirely if the bonus amount is not a finite positive number". -/
theorem c6_counterexample :
    JsNum.isFinite (bonusAmountOf c6InfConfig) = false ∧
    generateBonusEvents c6InfConfig [c6IncomeA] ≠ [] := by
  decide

theorem c6_bonus_events_witness :
    JsNum.jsGt (bonusAmountOf c6Config) (JsNum.num 0) = true ∧
    (generateBonusEvents c6Config [c6IncomeB, c6IncomeC, c6IncomeA]).Pairwise
      (fun a b => strLtB (monthKeyOf a.date) (monthKeyOf b.date) = true) :=
  ⟨by decide,
    ((c6_bonus_events c6Config [c6IncomeB, c6IncomeC, c6IncomeA]).2.2 (by decide)).1⟩

/-- Lookup in the insertion-ordered counter map modelling the JS `Map` of
`occurrenceCountBySourceId`. -/
def lookupCount : List (String × Nat) → String → Option Nat
  | [], _ => Option.none
  | (k1, c) :: rest, k => if k1 = k then some c else lookupCount rest k

/-- One `forEach` step of `occurrenceCountBySourceId`: skip non-expense rows
and falsy (absent or empty) source ids, otherwise bump the id's counter. -/
def countStep (m : List (String × Nat)) (row : ForecastRow) : List (String × Nat) :=
  if row.type ≠ EventKind.expense then m
  else
    match row.sourceId with
    | Option.none => m
    | some s => if s = "" then m else bumpCount m s

/-- The row predicate of the C9 claim: an expense-typed row whose `sourceId`
is the given id. -/
def rowMatches (x : String) (r : ForecastRow) : Bool :=
  decide (r.type = EventKind.expense) && decide (r.sourceId = some x)

theorem occurrenceCountBySourceId_eq (rows : List ForecastRow) :
    occurrenceCountBySourceId rows = rows.foldl countStep [] := rfl

theorem bumpCount_keys (m : List (String × Nat)) (k : String) :
    (bumpCount m k).map Prod.fst =
      if k ∈ m.map Prod.fst then m.map Prod.fst else m.map Prod.fst ++ [k] := by
  induction m with
  | nil => simp [bumpCount]
  | cons p rest ih =>
    obtain ⟨k1, c⟩ := p
    by_cases hk : k1 = k
    · subst hk
      simp [bumpCount]
    · rw [bumpCount, if_neg hk, List.map_cons, ih, List.map_cons]
      by_cases hmem : k ∈ rest.map Prod.fst
      · rw [if_pos hmem, if_pos (by simp [hmem])]
      · rw [if_neg hmem, if_neg (by simp [hmem, Ne.symm hk])]
        simp

theorem bumpCount_nodup {m : List (String × Nat)} (k : String)
    (hnd : (m.map Prod.fst).Nodup) : ((bumpCount m k).map Prod.fst).Nodup := by
  rw [bumpCount_keys]
  by_cases hmem : k ∈ m.map Prod.fst
  · rw [if_pos hmem]
    exact hnd
  · rw [if_neg hmem]
    simp [List.nodup_append, hnd, hmem]

theorem mem_bumpCount_keys (m : List (String × Nat)) (k x : String) :
    x ∈ (bumpCount m k).map Prod.fst ↔ x ∈ m.map Prod.fst ∨ x = k := by
  rw [bumpCount_keys]
  by_cases hmem : k ∈ m.map Prod.fst
  · rw [if_pos hmem]
    constructor
    · exact Or.inl
    · rintro (h | rfl)
      · exact h
      · exact hmem
  · rw [if_neg hmem]
    simp [List.mem_append]

theorem lookupCount_bump_self (m : List (String × Nat)) (k : String) :
    lookupCount (bumpCount m k) k = some ((lookupCount m k).getD 0 + 1) := by
  induction m with
  | nil => simp [bumpCount, lookupCount]
  | cons p rest ih =>
    obtain ⟨k1, c⟩ := p
    by_cases hk : k1 = k
    · subst hk
      simp [bumpCount, lookupCount]
    · rw [bumpCount, if_neg hk, lookupCount, if_neg hk, lookupCount, if_neg hk]
      exact ih

theorem lookupCount_bump_other (m : List (String × Nat)) {k x : String} (hx : x ≠ k) :
    lookupCount (bumpCount m k) x = lookupCount m x := by
  induction m with
  | nil => simp [bumpCount, lookupCount, Ne.symm hx]
  | cons p rest ih =>
    obtain ⟨k1, c⟩ := p
    by_cases hk : k1 = k
    · subst hk
      simp [bumpCount, lookupCount, Ne.symm hx]
    · rw [bumpCount, if_neg hk, lookupCount, lookupCount]
      by_cases h1 : k1 = x
      · rw [if_pos h1, if_pos h1]
      · rw [if_neg h1, if_neg h1]
        exact ih

theorem mem_of_lookupCount_some {m : List (String × Nat)} {k : String} {c : Nat}
    (h : lookupCount m k = some c) : (k, c) ∈ m := by
  induction m with
  | nil => simp [lookupCount] at h
  | cons p rest ih =>
    obtain ⟨k1, c1⟩ := p
    by_cases hk : k1 = k
    · subst hk
      rw [lookupCount, if_pos rfl] at h
      simp only [Option.some.injEq] at h
      subst h
      exact List.mem_cons_self _ _
    · rw [lookupCount, if_neg hk] at h
      exact List.mem_cons_of_mem _ (ih h)

theorem lookupCount_some_of_mem {m : List (String × Nat)} {k : String} {c : Nat}
    (hnd : (m.map Prod.fst).Nodup) (h : (k, c) ∈ m) : lookupCount m k = some c := by
  induction m with
  | nil => simp at h
  | cons p rest ih =>
    obtain ⟨k1, c1⟩ := p
    rw [List.map_cons, List.nodup_cons] at hnd
    rcases List.mem_cons.mp h with h1 | h2
    · rw [Prod.mk.injEq] at h1
      obtain ⟨hk, hc⟩ := h1
      rw [lookupCount, if_pos hk.symm, hc]
    · have hk1 : k1 ≠ k := by
        intro hcon
        subst hcon
        exact hnd.1 (List.mem_map.mpr ⟨(k1, c), h2, rfl⟩)
      rw [lookupCount, if_neg hk1]
      exact ih hnd.2 h2

theorem countStep_nodup (m : List (String × Nat)) (r : ForecastRow)
    (hnd : (m.map Prod.fst).Nodup) : ((countStep m r).map Prod.fst).Nodup := by
  unfold countStep
  by_cases ht : r.type ≠ EventKind.expense
  · rw [if_pos ht]
    exact hnd
  · rw [if_neg ht]
    cases hs : r.sourceId with
    | none => exact hnd
    | some s =>
      dsimp only
      by_cases hse : s = ""
      · rw [if_pos hse]
        exact hnd
      · rw [if_neg hse]
        exact bumpCount_nodup s hnd

theorem countStep_getD (m : List (String × Nat)) (r : ForecastRow) {x : String}
    (hx : x ≠ "") :
    (lookupCount (countStep m r) x).getD 0 =
      (lookupCount m x).getD 0 + (if rowMatches x r = true then 1 else 0) := by
  unfold countStep rowMatches
  by_cases ht : r.type = EventKind.expense
  · rw [if_neg (by simpa using ht)]
    cases hs : r.sourceId with
    | none => simp [hs]
    | some s =>
      dsimp only
      by_cases hse : s = ""
      · subst hse
        rw [if_pos rfl]
        simp [hs, Ne.symm hx]
      · rw [if_neg hse]
        by_cases hxs : s = x
        · subst hxs
          rw [lookupCount_bump_self]
          simp [ht, hs]
        · rw [lookupCount_bump_other m (fun h => hxs h.symm)]
          simp [hs, hxs]
  · rw [if_pos (by simpa using ht)]
    simp [ht]

theorem countStep_keys (m : List (String × Nat)) (r : ForecastRow) (x : String) :
    x ∈ (countStep m r).map Prod.fst ↔
      x ∈ m.map Prod.fst ∨ (x ≠ "" ∧ rowMatches x r = true) := by
  unfold countStep rowMatches
  by_cases ht : r.type = EventKind.expense
  · rw [if_neg (by simpa using ht)]
    cases hs : r.sourceId with
    | none => simp [hs]
    | some s =>
      dsimp only
      by_cases hse : s = ""
      · subst hse
        rw [if_pos rfl]
        constructor
        · exact Or.inl
        · rintro (h | ⟨hxne, hmt⟩)
          · exact h
          · rw [Bool.and_eq_true, decide_eq_true_eq, decide_eq_true_eq] at hmt
            exact absurd (Option.some.inj hmt.2).symm hxne
      · rw [if_neg hse, mem_bumpCount_keys]
        constructor
        · rintro (h | rfl)
          · exact Or.inl h
          · refine Or.inr ⟨hse, ?_⟩
            rw [Bool.and_eq_true, decide_eq_true_eq, decide_eq_true_eq]
            exact ⟨ht, rfl⟩
        · rintro (h | ⟨hxne, hmt⟩)
          · exact Or.inl h
          · rw [Bool.and_eq_true, decide_eq_true_eq, decide_eq_true_eq] at hmt
            exact Or.inr (Option.some.inj hmt.2).symm
  · rw [if_pos (by simpa using ht)]
    simp [ht, rowMatches]

theorem foldl_countStep_nodup (rows : List ForecastRow) (m : List (String × Nat))
    (hnd : (m.map Prod.fst).Nodup) :
    ((rows.foldl countStep m).map Prod.fst).Nodup := by
  induction rows generalizing m hnd with
  | nil => exact hnd
  | cons r rest ih => exact ih _ (countStep_nodup m r hnd)

theorem foldl_countStep_getD (rows : List ForecastRow) (m : List (String × Nat))
    {x : String} (hx : x ≠ "") :
    (lookupCount (rows.foldl countStep m) x).getD 0 =
      (lookupCount m x).getD 0 + rows.countP (rowMatches x) := by
  induction rows generalizing m with
  | nil => simp
  | cons r rest ih =>
    rw [List.foldl_cons, List.countP_cons, ih, countStep_getD m r hx]
    omega

theorem foldl_countStep_keys (rows : List ForecastRow) (m : List (String × Nat))
    (x : String) :
    x ∈ (rows.foldl countStep m).map Prod.fst ↔
      x ∈ m.map Prod.fst ∨ (x ≠ "" ∧ 0 < rows.countP (rowMatches x)) := by
  induction rows generalizing m with
  | nil => simp
  | cons r rest ih =>
    rw [List.foldl_cons, ih, countStep_keys, List.countP_cons]
    by_cases hm : rowMatches x r = true
    · rw [if_pos hm]
      constructor
      · rintro ((h | ⟨hxne, _⟩) | ⟨hxne, _⟩)
        · exact Or.inl h
        · exact Or.inr ⟨hxne, by omega⟩
        · exact Or.inr ⟨hxne, by omega⟩
      · rintro (h | ⟨hxne, _⟩)
        · exact Or.inl (Or.inl h)
        · exact Or.inl (Or.inr ⟨hxne, hm⟩)
    · rw [if_neg hm]
      constructor
      · rintro ((h | ⟨_, hcon⟩) | ⟨hxne, hc⟩)
        · exact Or.inl h
        · exact absurd hcon hm
        · exact Or.inr ⟨hxne, by omega⟩
      · rintro (h | ⟨hxne, hc⟩)
        · exact Or.inl (Or.inl h)
        · exact Or.inr ⟨hxne, by omega⟩

theorem contains_eq_true_iff (l : List String) (a : String) :
    l.contains a = true ↔ a ∈ l := by
  simp

/-- Membership in the `highlightEnabledIds` list: an id of some expense that is
explicitly opted in, unless no expense at all is explicitly opted in, in which
case every expense id qualifies. -/
theorem mem_highlight_ids_iff (expenses : List Expense) (x : String) :
    x ∈ (expenses.filter
        (fun e =>
          if expenses.any (fun e2 => decide (e2.highlightLastEvent = some true)) then
            decide (e.highlightLastEvent = some true)
          else true)).map Expense.id ↔
      ∃ e ∈ expenses, e.id = x ∧
        (expenses.any (fun e2 => decide (e2.highlightLastEvent = some true)) = true →
          e.highlightLastEvent = some true) := by
  by_cases hAny : expenses.any (fun e2 => decide (e2.highlightLastEvent = some true)) = true
  · rw [List.mem_map]
    constructor
    · rintro ⟨e, he, rfl⟩
      rw [List.mem_filter] at he
      obtain ⟨hee, hcond⟩ := he
      rw [if_pos hAny, decide_eq_true_eq] at hcond
      exact ⟨e, hee, rfl, fun h2 => hcond⟩
    · rintro ⟨e, hee, hid, himp⟩
      refine ⟨e, List.mem_filter.mpr ⟨hee, ?_⟩, hid⟩
      rw [if_pos hAny, decide_eq_true_eq]
      exact himp hAny
  · rw [List.mem_map]
    constructor
    · rintro ⟨e, he, rfl⟩
      rw [List.mem_filter] at he
      exact ⟨e, he.1, rfl, fun h2 => absurd h2 hAny⟩
    · rintro ⟨e, hee, hid, h3⟩
      refine ⟨e, List.mem_filter.mpr ⟨hee, ?_⟩, hid⟩
      rw [if_neg hAny]

/-- C9 (amended): `createFiniteExpenseIdSet` returns exactly the highlight-
eligible ids that are NON-EMPTY strings with more than one expense-typed
occurrence among the forecast rows: the JS truthiness test `!row.sourceId`
additionally drops rows whose source id is the empty string, so an expense
with id `""` is never highlighted however many occurrences it has. -/
theorem c9_finite_expense_id_set (expenses : List Expense) (rows : List ForecastRow)
    (x : String) :
    x ∈ createFiniteExpenseIdSet expenses rows ↔
      ((∃ e ∈ expenses, e.id = x ∧
          (expenses.any (fun e2 => decide (e2.highlightLastEvent = some true)) = true →
            e.highlightLastEvent = some true)) ∧
        x ≠ "" ∧ 1 < rows.countP (rowMatches x)) := by
  unfold createFiniteExpenseIdSet
  dsimp only
  rw [List.mem_map]
  constructor
  · rintro ⟨⟨k, c⟩, hp, rfl⟩
    rw [List.mem_filter] at hp
    obtain ⟨hpm, hcond⟩ := hp
    rw [Bool.and_eq_true, decide_eq_true_eq] at hcond
    obtain ⟨helig, hcnt⟩ := hcond
    rw [occurrenceCountBySourceId_eq] at hpm
    have hkeys : k ∈ (rows.foldl countStep []).map Prod.fst :=
      List.mem_map.mpr ⟨(k, c), hpm, rfl⟩
    rcases (foldl_countStep_keys rows [] k).mp hkeys with h0 | ⟨hkne, _⟩
    · exact absurd h0 (List.not_mem_nil _)
    have hlk : lookupCount (rows.foldl countStep []) k = some c :=
      lookupCount_some_of_mem (foldl_countStep_nodup rows [] List.nodup_nil) hpm
    have hc : c = rows.countP (rowMatches k) := by
      have := foldl_countStep_getD rows [] hkne
      rw [hlk] at this
      simpa [lookupCount] using this
    refine ⟨?_, hkne, hc ▸ hcnt⟩
    rw [contains_eq_true_iff] at helig
    exact (mem_highlight_ids_iff expenses k).mp helig
  · rintro ⟨helig, hxne, hcnt⟩
    have hkeys : x ∈ (rows.foldl countStep []).map Prod.fst :=
      (foldl_countStep_keys rows [] x).mpr (Or.inr ⟨hxne, by omega⟩)
    rw [List.mem_map] at hkeys
    obtain ⟨⟨k, c⟩, hpm, hk⟩ := hkeys
    dsimp only at hk
    subst hk
    have hlk : lookupCount (rows.foldl countStep []) k = some c :=
      lookupCount_some_of_mem (foldl_countStep_nodup rows [] List.nodup_nil) hpm
    have hc : c = rows.countP (rowMatches k) := by
      have := foldl_countStep_getD rows [] hxne
      rw [hlk] at this
      simpa [lookupCount] using this
    refine ⟨(k, c), List.mem_filter.mpr ⟨?_, ?_⟩, rfl⟩
    · rw [occurrenceCountBySourceId_eq]
      exact hpm
    · rw [Bool.and_eq_true, decide_eq_true_eq]
      refine ⟨?_, by rw [hc]; exact hcnt⟩
      rw [contains_eq_true_iff]
      exact (mem_highlight_ids_iff expenses k).mpr helig

def c9Expense : Expense :=
  { c3Expense with id := "e1" }

def c9RowA : ForecastRow :=
  { id := "expense-e1-2024-01-03-0"
    date := "2024-01-03"
    type := EventKind.expense
    item := "Groceries"
    category := "food"
    amount := JsNum.num 60
    sourceId := some "e1"
    runningBalance := JsNum.num 0 }

def c9RowB : ForecastRow :=
  { c9RowA with id := "expense-e1-2024-01-10-1", date := "2024-01-10" }

/-- An expense whose id is the empty string but which explicitly opts in to
last-event highlighting. -/
def c9EmptyExpense : Expense :=
  { c3Expense with id := "", highlightLastEvent := some true }

def c9EmptyRowA : ForecastRow :=
  { c9RowA with sourceId := some "" }

def c9EmptyRowB : ForecastRow :=
  { c9RowB with sourceId := some "" }

/-- C9 counterexample: an expense with id `""` is highlight-eligible (it is
the only one and explicitly opted in) and has two expense-typed occurrences
among the rows, yet `createFiniteExpenseIdSet` omits it: the claimed set
equation fails at the empty-string id. -/
theorem c9_counterexample :
    c9EmptyExpense.highlightLastEvent = some true ∧
    1 < ([c9EmptyRowA, c9EmptyRowB].countP (rowMatches c9EmptyExpense.id)) ∧
    c9EmptyExpense.id ∉
      createFiniteExpenseIdSet [c9EmptyExpense] [c9EmptyRowA, c9EmptyRowB] := by
  decide

theorem c9_finite_expense_id_set_witness :
    "e1" ∈ createFiniteExpenseIdSet [c9Expense] [c9RowA, c9RowB] :=
  (c9_finite_expense_id_set [c9Expense] [c9RowA, c9RowB] "e1").mpr
    ⟨⟨c9Expense, List.mem_cons_self _ _, rfl, by decide⟩, by decide, by decide⟩
